import Mathlib

/-!
Verification of the jobcard-portal front end (TypeScript sources) against its
natural-language specification.

The TypeScript code is shallowly embedded in Lean:
* JavaScript objects and `Map`s used as string-keyed dictionaries become
  insertion-ordered association lists (`lookupA`, `setA`, `removeA`); updating
  an existing key overwrites in place, a new key is appended, exactly as JS
  object/Map insertion behaves.
* JS truthiness on `string | null` values (`if (node.parent_id)`,
  `if (pathMap[id])`, `if (!pn)`) is modelled explicitly: `null` and the empty
  string are falsy (`truthyOpt`, `parentKey`).
* The unbounded recursion of the memoized `resolve` closure inside
  `buildPathMap` is modelled with explicit fuel returning `Option`; fuel
  `nodes.length + 1` is proved sufficient whenever the parent pointers are
  acyclic (`resolve_terminates`), so the fuel default never fires on the
  inputs the claims quantify over.
* Supabase query results are `{ data, error }` records; screen loaders become
  pure functions from the backend replies to the final component state,
  together with the list of queries they issued.
-/

set_option maxHeartbeats 1000000

/-- Insertion-ordered association-list lookup, modelling `obj[k]` / `map.get(k)`. -/
def lookupA {α : Type} : List (String × α) → String → Option α
  | [], _ => none
  | e :: rest, k => if e.fst = k then some e.snd else lookupA rest k

/-- Insertion-ordered association-list update, modelling `obj[k] = v` / `map.set(k, v)`:
overwrite in place when the key is present, append otherwise. -/
def setA {α : Type} : List (String × α) → String → α → List (String × α)
  | [], k, v => [(k, v)]
  | e :: rest, k, v => if e.fst = k then (k, v) :: rest else e :: setA rest k v

/-- Association-list key removal, modelling `delete obj[k]`. -/
def removeA {α : Type} : List (String × α) → String → List (String × α)
  | [], _ => []
  | e :: rest, k => if e.fst = k then rest else e :: removeA rest k

/-- JS truthiness of a `string | null` value: `null` and `""` are falsy. -/
def truthyOpt : Option String → Bool
  | some s => s != ""
  | none => false

/-- The last element of the list whose `key` equals `k`.  This is the content
of a JS `Map` built by iterating `forEach((x) => map.set(key x, x))` and then
read with `map.get(k)`: a later entry with the same key overwrites an earlier
one. -/
def findLastBy {α : Type} (key : α → String) : List α → String → Option α
  | [], _ => none
  | x :: rest, k =>
    match findLastBy key rest k with
    | some y => some y
    | none => if key x = k then some x else none

/-- `WbsNode` row shape from `JobcardClient.tsx`. -/
structure WbsNode where
  id : String
  projectnumber : String
  item_seq : Int
  parent_id : Option String
  code : String
  name : String
deriving DecidableEq

/-- `map.get(id)` where `map` is the `Map<string, WbsNode>` that `buildPathMap`
builds by `nodes.forEach((n) => map.set(n.id, n))`: the last node with that id. -/
def findNode (nodes : List WbsNode) (id : String) : Option WbsNode :=
  findLastBy WbsNode.id nodes id

/-- The parent id that `resolve` actually recurses on: `if (node.parent_id)`
is a JS truthiness test, so a `null` or empty-string `parent_id` is treated
as "no parent". -/
def parentKey (n : WbsNode) : Option String :=
  match n.parent_id with
  | some p => if p = "" then none else some p
  | none => none

/-- The recursive memoized `resolve` closure of `buildPathMap`
(`JobcardClient.tsx` lines 76-88, identical in `project-access-admin.tsx`),
with explicit fuel.  The memo table `pathMap` is threaded through; `none`
means the fuel ran out (the JS original would still be recursing).

JS original:
```
const resolve = (id) => {
  if (pathMap[id]) return pathMap[id];
  const node = map.get(id);
  if (!node) return baseCode;
  let parentPath = baseCode;
  if (node.parent_id) parentPath = resolve(node.parent_id);
  const full = parentPath + "-" + node.code;
  pathMap[id] = full;
  return full;
};
```
-/
def resolveFuel (nodes : List WbsNode) (baseCode : String) :
    Nat → String → List (String × String) → Option (String × List (String × String))
  | 0, _, _ => none
  | fuel + 1, id, pathMap =>
    if truthyOpt (lookupA pathMap id) then
      some ((lookupA pathMap id).getD "", pathMap)
    else
      match findNode nodes id with
      | none => some (baseCode, pathMap)
      | some node =>
        let parentRes :=
          match parentKey node with
          | some p => resolveFuel nodes baseCode fuel p pathMap
          | none => some (baseCode, pathMap)
        match parentRes with
        | none => none
        | some (parentPath, pm1) =>
          let full := parentPath ++ "-" ++ node.code
          some (full, setA pm1 id full)

/-- `buildPathMap` (`JobcardClient.tsx` lines 70-92): resolve every node,
returning the memo table.  Fuel `nodes.length + 1` is sufficient for every
resolve call whenever the parent pointers are acyclic (`resolve_terminates`
below), so the `none` fallback branch is unreachable on such inputs. -/
def buildPathMap (nodes : List WbsNode) (baseCode : String) : List (String × String) :=
  nodes.foldl
    (fun pathMap n =>
      match resolveFuel nodes baseCode (nodes.length + 1) n.id pathMap with
      | some (_, pm1) => pm1
      | none => pathMap)
    []

/-- An explicit ranking certifying that no chain of parent references (as the
code follows them: through `map.get` and the truthiness test) is cyclic.
Ranks of node ids are below the list length — any acyclic parent structure
admits such a ranking, e.g. the ancestor-chain length (see
`acyclic_of_unbounded_rank`). -/
def AcyclicRanked (nodes : List WbsNode) (rank : String → Nat) : Prop :=
  (∀ n ∈ nodes, rank n.id < nodes.length) ∧
  (∀ n ∈ nodes, ∀ m ∈ nodes, parentKey n = some m.id → rank m.id < rank n.id)

instance (nodes : List WbsNode) (rank : String → Nat) :
    Decidable (AcyclicRanked nodes rank) := by
  unfold AcyclicRanked; infer_instance

/-- No chain of parent references among `nodes` is cyclic. -/
def Acyclic (nodes : List WbsNode) : Prop :=
  ∃ rank : String → Nat, AcyclicRanked nodes rank

/-- The unmemoized meaning of `resolve`: same recursion structure as
`resolveFuel` but without the memo table.  Used as the reference value the
memo table is proved to agree with. -/
def resolvePure (nodes : List WbsNode) (baseCode : String) :
    Nat → String → Option String
  | 0, _ => none
  | fuel + 1, id =>
    match findNode nodes id with
    | none => some baseCode
    | some node =>
      match parentKey node with
      | none => some (baseCode ++ "-" ++ node.code)
      | some p => (resolvePure nodes baseCode fuel p).map (fun pp => pp ++ "-" ++ node.code)

/-- Invariant of the memo table reachable inside `buildPathMap`: every entry
is keyed by the id of a node of the list, holds the unmemoized resolution of
that id, and is a non-empty string (so the truthiness test on a stored entry
always passes). -/
def PathInv (nodes : List WbsNode) (baseCode : String)
    (pm : List (String × String)) : Prop :=
  ∀ k v, lookupA pm k = some v →
    (findNode nodes k).isSome ∧
    resolvePure nodes baseCode (nodes.length + 1) k = some v ∧
    v ≠ ""

/-! ## Spec-side reference definitions for the WBS path claims

These follow the wording of the claims (naive unmemoized path recursion,
ancestor chains), to be compared with the source-derived `buildPathMap`. -/

/-- Modelled from the claim wording: the naive unmemoized recursion
`path(n) = (if n has no parent in the list then baseCode else path(parent(n))) + "-" + n.code`,
with fuel.  The parent of `n` is the node of the list whose `id` equals
`n.parent_id`. -/
def naivePath (nodes : List WbsNode) (baseCode : String) :
    Nat → WbsNode → Option String
  | 0, _ => none
  | fuel + 1, n =>
    match n.parent_id with
    | none => some (baseCode ++ "-" ++ n.code)
    | some p =>
      match nodes.find? (fun m => m.id == p) with
      | none => some (baseCode ++ "-" ++ n.code)
      | some m => (naivePath nodes baseCode fuel m).map (fun pp => pp ++ "-" ++ n.code)

/-- Modelled from the claim wording: the chain of ancestors of a node, from
the topmost ancestor down to the node itself, with fuel. -/
def ancestors (nodes : List WbsNode) : Nat → WbsNode → Option (List WbsNode)
  | 0, _ => none
  | fuel + 1, n =>
    match n.parent_id with
    | none => some [n]
    | some p =>
      match nodes.find? (fun m => m.id == p) with
      | none => some [n]
      | some m => (ancestors nodes fuel m).map (fun l => l ++ [n])

/-- Modelled from the claim wording: hyphen-joined code strings. -/
def joinCodes : List String → String
  | [] => ""
  | [c] => c
  | c :: c2 :: rest => c ++ "-" ++ joinCodes (c2 :: rest)

/-! ## HSE checklist (`buildChecklist`, `JobcardClient.tsx` lines 94-125) -/

/-- `HseTopic` row shape from `JobcardClient.tsx`. -/
structure HseTopic where
  id : String
  code : String
  name : String
  description : Option String
  regulatory_ref : Option String
deriving DecidableEq

/-- `HseQuestion` row shape from `JobcardClient.tsx`. -/
structure HseQuestion where
  id : String
  topic_id : String
  question_text : String
  response_type : String
  required : Bool
  sort_order : Int
deriving DecidableEq

/-- `HseResponse` row shape from `JobcardClient.tsx`. -/
structure HseResponse where
  id : String
  task_id : String
  question_id : String
  response_value : Option String
  responder_name : Option String
  responder_id : Option String
  responded_at : Option String
deriving DecidableEq

/-- `TaskHseChecklist` entry: a topic together with its questions, each paired
with the response looked up for it (the TS spread `{ ...q, response }`). -/
structure TaskHseChecklist where
  topic : HseTopic
  questions : List (HseQuestion × Option HseResponse)
deriving DecidableEq

/-- `buildChecklist` (`JobcardClient.tsx` lines 94-125).

JS original: early-return `[]` for an empty attached list; a `Map` of
responses keyed by `question_id` (later rows overwrite earlier ones); a `Map`
grouping questions by `topic_id` in encounter order; the attached topics are
`allTopics.filter((t) => attachedSet.has(t.id))`; each shown topic maps its
grouped questions to question/response pairs, `null` when no response. -/
def buildChecklist (allTopics : List HseTopic) (allQuestions : List HseQuestion)
    (attachedTopicIds : List String) (responses : List HseResponse) :
    List TaskHseChecklist :=
  if attachedTopicIds.isEmpty then []
  else
    let responsesByQuestionId :=
      responses.foldl (fun m r => setA m r.question_id r) []
    let questionsByTopic :=
      allQuestions.foldl
        (fun m q => setA m q.topic_id (((lookupA m q.topic_id).getD []) ++ [q])) []
    let topicsToShow := allTopics.filter (fun t => attachedTopicIds.contains t.id)
    topicsToShow.map (fun t =>
      { topic := t
        questions := ((lookupA questionsByTopic t.id).getD []).map
          (fun q => (q, lookupA responsesByQuestionId q.id)) })

/-! ## Dashboard loader (`fetchItems` and `buildCountMap`, dashboard list component) -/

/-- Membership row `{ projectnumber, role }`. -/
structure ProjectMembership where
  projectnumber : String
  role : String
deriving DecidableEq

/-- `ProjectItem` row shape from the dashboard list component. -/
structure ProjectItem where
  id : String
  projectnumber : String
  item_seq : Int
  line_desc : String
deriving DecidableEq

/-- The `item_seq` field of a `TaskRow` has TS type `number | string | null`.
Numbers are modelled as exact integers (the rows are DB sequence numbers);
fractional or non-numeric floating-point values are outside the model. -/
inductive ItemSeq where
  | num (n : Int)
  | str (s : String)
  | jsNull
deriving DecidableEq

/-- `TaskRow` shape from the dashboard list component. -/
structure TaskRow where
  projectnumber : String
  item_seq : ItemSeq
deriving DecidableEq

/-- The JS whitespace characters recognised by `Number()` / `parseInt`
(ASCII whitespace, NBSP and the BOM; the rarer Unicode space separators are
outside the model and never occur in the claims). -/
def isJsWhitespace (c : Char) : Bool :=
  c == ' ' || c == '\t' || c == '\n' || c == '\r' ||
    c.toNat == 11 || c.toNat == 12 || c.toNat == 160 || c.toNat == 65279

/-- Decimal digit string to natural number. -/
def digitsToNat (ds : List Char) : Nat :=
  ds.foldl (fun a c => a * 10 + (c.toNat - 48)) 0

/-- Drop JS whitespace from both ends. -/
def trimJsWhitespace (cs : List Char) : List Char :=
  ((cs.dropWhile isJsWhitespace).reverse.dropWhile isJsWhitespace).reverse

/-- Models the JS `Number(string)` conversion on the strings relevant here:
after trimming whitespace, the empty string converts to `0` and an optionally
signed all-digit string converts to that integer; anything else is `NaN`
(`none`).  Fractional, exponent and hex literals are outside the model. -/
def jsStringToNumber (s : String) : Option Int :=
  match trimJsWhitespace s.toList with
  | [] => some 0
  | c :: rest =>
    let sign : Int := if c = '-' then -1 else 1
    let digits := if c = '-' ∨ c = '+' then rest else c :: rest
    if digits ≠ [] ∧ digits.all Char.isDigit then some (sign * (digitsToNat digits : Int))
    else none

/-- Models `Number(t.item_seq)` for `item_seq : number | string | null`
(`Number(null)` is `0`); `none` is a non-finite result, so
`Number.isFinite(Number(x))` is `(jsNumber x).isSome`. -/
def jsNumber : ItemSeq → Option Int
  | ItemSeq.num n => some n
  | ItemSeq.str s => jsStringToNumber s
  | ItemSeq.jsNull => some 0

/-- `keyOf` from the dashboard list component: the template string
`pn + ":" + itemSeq`. -/
def keyOf (projectnumber : String) (itemSeq : Int) : String :=
  projectnumber ++ ":" ++ toString itemSeq

/-- `buildCountMap` from the dashboard list component:

```
for (const t of tasks) {
  const pn = t.projectnumber;
  const seqNum = Number(t.item_seq);
  if (!pn || !Number.isFinite(seqNum)) continue;
  const k = keyOf(pn, seqNum);
  map[k] = (map[k] ?? 0) + 1;
}
```
-/
def buildCountMap (tasks : List TaskRow) : List (String × Nat) :=
  tasks.foldl
    (fun map t =>
      match jsNumber t.item_seq with
      | none => map
      | some seqNum =>
        if t.projectnumber = "" then map
        else
          let k := keyOf t.projectnumber seqNum
          setA map k ((lookupA map k).getD 0 + 1))
    []

/-- Sum of the per-key counts of a count map. -/
def sumCounts (m : List (String × Nat)) : Nat :=
  (m.map Prod.snd).sum

/-- A supabase `{ data, error }` reply to a select query. -/
structure QueryReply (α : Type) where
  error : Option String
  data : Option (List α)

/-- The backend as the dashboard loader sees it: a reply for the membership
query, and replies for the item and task queries as functions of the
`.in('projectnumber', ...)` filter they are issued with. -/
structure DashBackend where
  memberships : QueryReply ProjectMembership
  itemsFor : List String → QueryReply ProjectItem
  tasksFor : List String → QueryReply TaskRow

/-- The component state the loader writes (`useState` cells). -/
structure DashState where
  items : List ProjectItem
  rolesByProject : List (String × String)
  jobcardCounts : List (String × Nat)
  loading : Bool
  error : Option String
deriving DecidableEq

/-- A query issued by the loader, with the filter it carries. -/
inductive DashQuery where
  | memberships
  | projectItems (projectnumbers : List String)
  | jobcardTasks (projectnumbers : List String)
deriving DecidableEq

/-- `Array.from(new Set(l))`: distinct elements in first-occurrence order. -/
def dedupFirstAux : List String → List String → List String
  | _, [] => []
  | seen, x :: rest =>
    if x ∈ seen then dedupFirstAux seen rest
    else x :: dedupFirstAux (x :: seen) rest

/-- `Array.from(new Set(l))`. -/
def dedupFirst (l : List String) : List String :=
  dedupFirstAux [] l

/-- `fetchItems` of the dashboard list component (the counts variant):
sequentially issues the membership query, then — unless it failed or returned
no rows — the item query and the task query, both filtered to the distinct
membership project numbers; each failure sets the error message, clears the
relevant state and stops.  Returns the final state and the issued queries. -/
def fetchItems (b : DashBackend) (s0 : DashState) : DashState × List DashQuery :=
  let s1 := { s0 with loading := true, error := none }
  match b.memberships.error with
  | some msg =>
    ({ s1 with error := some msg, items := [], jobcardCounts := [], loading := false },
     [DashQuery.memberships])
  | none =>
    let memberProjects := b.memberships.data.getD []
    if memberProjects.isEmpty then
      ({ s1 with items := [], rolesByProject := [], jobcardCounts := [], loading := false },
       [DashQuery.memberships])
    else
      let projectnumbers := dedupFirst (memberProjects.map ProjectMembership.projectnumber)
      let roleMap := memberProjects.foldl (fun m mb => setA m mb.projectnumber mb.role) []
      let s2 := { s1 with rolesByProject := roleMap }
      match (b.itemsFor projectnumbers).error with
      | some msg =>
        ({ s2 with error := some msg, items := [], jobcardCounts := [], loading := false },
         [DashQuery.memberships, DashQuery.projectItems projectnumbers])
      | none =>
        let loadedItems := (b.itemsFor projectnumbers).data.getD []
        let s3 := { s2 with items := loadedItems }
        match (b.tasksFor projectnumbers).error with
        | some msg =>
          ({ s3 with error := some msg, jobcardCounts := [], loading := false },
           [DashQuery.memberships, DashQuery.projectItems projectnumbers,
            DashQuery.jobcardTasks projectnumbers])
        | none =>
          let counts := buildCountMap ((b.tasksFor projectnumbers).data.getD [])
          ({ s3 with jobcardCounts := counts, loading := false },
           [DashQuery.memberships, DashQuery.projectItems projectnumbers,
            DashQuery.jobcardTasks projectnumbers])

/-! ## Project-access admin (`setRole` in `page.tsx` and `project-access-admin.tsx`) -/

/-- The role options of the admin screen. -/
inductive Role where
  | none
  | member
  | manager
  | admin
deriving DecidableEq

/-- `ROLE_OPTIONS` from `project-access-admin.tsx`. -/
def ROLE_OPTIONS : List Role := [Role.none, Role.member, Role.manager, Role.admin]

/-- A write issued against `jobcard_project_members`. -/
inductive AdminWrite where
  | deleteMember (user_id projectnumber : String)
  | upsertMember (user_id projectnumber : String) (role : Role) (onConflict : String)
deriving DecidableEq

/-- The admin page state the `setRole` of `page.tsx` touches. -/
structure AdminPageState where
  memberMap : List (String × Role)
  savingProject : List (String × Bool)
deriving DecidableEq

/-- `setRole` from `admin/project-access-admin/page.tsx` (lines 151-194):
guard on a selected user, mark the project as saving, delete on `none` /
upsert with `onConflict: "projectnumber,user_id"` otherwise, update the local
membership map only on success, and clear the saving mark in `finally`.
`writeError` is the error of the issued write; the `catch` branch only shows
an alert, which is not part of the modelled state. -/
def setRole (selectedUserId projectnumber : String) (role : Role)
    (writeError : Option String) (st : AdminPageState) :
    AdminPageState × List AdminWrite :=
  if selectedUserId = "" then (st, [])
  else
    let st1 : AdminPageState :=
      { st with savingProject := setA st.savingProject projectnumber true }
    match role with
    | Role.none =>
      let writes := [AdminWrite.deleteMember selectedUserId projectnumber]
      match writeError with
      | some _ =>
        ({ st1 with savingProject := setA st1.savingProject projectnumber false }, writes)
      | none =>
        ({ st1 with
            memberMap := removeA st1.memberMap projectnumber,
            savingProject := setA st1.savingProject projectnumber false }, writes)
    | r =>
      let writes := [AdminWrite.upsertMember selectedUserId projectnumber r
        "projectnumber,user_id"]
      match writeError with
      | some _ =>
        ({ st1 with savingProject := setA st1.savingProject projectnumber false }, writes)
      | none =>
        ({ st1 with
            memberMap := setA st1.memberMap projectnumber r,
            savingProject := setA st1.savingProject projectnumber false }, writes)

/-- `setRole` from `admin/project-access-admin/project-access-admin.tsx`
(lines 55-85): optimistic update of the membership map first, then the
delete/upsert; a write error is only logged, so the map update stands either
way.  The write error is therefore not an argument. -/
def setRoleOpt (selectedUserId projectnumber : String) (role : Role)
    (membership : List (String × Role)) :
    List (String × Role) × List AdminWrite :=
  if selectedUserId = "" then (membership, [])
  else
    match role with
    | Role.none =>
      (removeA membership projectnumber,
       [AdminWrite.deleteMember selectedUserId projectnumber])
    | r =>
      (setA membership projectnumber r,
       [AdminWrite.upsertMember selectedUserId projectnumber r "projectnumber,user_id"])

/-! ## Project-item page route guard (`dashboard/[projectnumber]/[item_seq]/page.tsx`) -/

/-- What the page returns. -/
inductive PageResult where
  | notFound
  | render (projectnumber : String) (itemSeq : Int)
deriving DecidableEq

/-- The sign-and-digits step of `Number.parseInt(s, 10)` after whitespace
stripping: read an optional sign, then the longest digit run; no digits means
`NaN` (`none`).  Values are exact integers; the double-precision rounding of
astronomically long digit strings is outside the model. -/
def parseIntCore (cs : List Char) : Option Int :=
  let sign : Int := if cs.head? = some '-' then -1 else 1
  let rest := if cs.head? = some '-' ∨ cs.head? = some '+' then cs.tail else cs
  let digits := rest.takeWhile Char.isDigit
  if digits = [] then none else some (sign * (digitsToNat digits : Int))

/-- `Number.parseInt(s, 10)`: skip leading whitespace, then sign and digits. -/
def jsParseInt10 (s : String) : Option Int :=
  parseIntCore (s.toList.dropWhile isJsWhitespace)

/-- The `Page` component of `dashboard/[projectnumber]/[item_seq]/page.tsx`:
`Number.parseInt(item_seq, 10)`, `notFound()` when the result is not finite
(i.e. is `NaN`), otherwise render the client component with the parsed
number. -/
def pageHandler (projectnumber item_seq : String) : PageResult :=
  match jsParseInt10 item_seq with
  | none => PageResult.notFound
  | some n => PageResult.render projectnumber n

/-- Modelled from the claim wording: the first character is a decimal digit,
or a sign followed by a decimal digit. -/
def firstIsSignedDigit (cs : List Char) : Bool :=
  let rest := if cs.head? = some '-' ∨ cs.head? = some '+' then cs.tail else cs
  match rest.head? with
  | some d => d.isDigit
  | none => false

/-- Modelled from the claim wording: the string begins with an optionally
signed decimal digit. -/
def beginsWithSignedDigit (s : String) : Bool :=
  firstIsSignedDigit s.toList

/-- The claim's characterization repaired: after skipping leading whitespace,
the string begins with an optionally signed decimal digit. -/
def beginsWithSignedDigitAfterWs (s : String) : Bool :=
  firstIsSignedDigit (s.toList.dropWhile isJsWhitespace)

/-! ## Association-list lemmas -/

theorem lookupA_setA_self {α : Type} (m : List (String × α)) (k : String) (v : α) :
    lookupA (setA m k v) k = some v := by
  induction m with
  | nil => simp [setA, lookupA]
  | cons e rest ih =>
    by_cases h : e.fst = k
    · simp [setA, h, lookupA]
    · simp [setA, h, lookupA, ih]

theorem lookupA_setA_ne {α : Type} (m : List (String × α)) (k k' : String) (v : α)
    (h : k' ≠ k) : lookupA (setA m k v) k' = lookupA m k' := by
  induction m with
  | nil => simp [setA, lookupA, Ne.symm h]
  | cons e rest ih =>
    by_cases he : e.fst = k
    · have hek' : e.fst ≠ k' := fun hh => h (hh.symm.trans he)
      simp only [setA, if_pos he, lookupA, if_neg (Ne.symm h), if_neg hek']
    · simp only [setA, if_neg he, lookupA]
      by_cases he' : e.fst = k'
      · simp [he']
      · simp [he', ih]

theorem lookupA_eq_none {α : Type} (m : List (String × α)) (k : String)
    (h : k ∉ m.map Prod.fst) : lookupA m k = none := by
  induction m with
  | nil => rfl
  | cons e rest ih =>
    simp only [List.map_cons, List.mem_cons] at h
    push_neg at h
    simp [lookupA, Ne.symm h.1, ih h.2]

theorem lookupA_removeA_self {α : Type} (m : List (String × α)) (k : String)
    (hm : (m.map Prod.fst).Nodup) : lookupA (removeA m k) k = none := by
  induction m with
  | nil => rfl
  | cons e rest ih =>
    simp only [List.map_cons, List.nodup_cons] at hm
    by_cases h : e.fst = k
    · subst h
      simpa [removeA] using lookupA_eq_none rest e.fst hm.1
    · simp [removeA, h, lookupA, ih hm.2]

/-! ## `findLastBy` and `findNode` lemmas -/

theorem findLastBy_some {α : Type} (key : α → String) (l : List α) (k : String) (x : α)
    (h : findLastBy key l k = some x) : x ∈ l ∧ key x = k := by
  induction l with
  | nil => simp [findLastBy] at h
  | cons a rest ih =>
    simp only [findLastBy] at h
    cases hr : findLastBy key rest k with
    | some y =>
      rw [hr] at h
      injection h with h
      subst h
      exact ⟨List.mem_cons_of_mem _ (ih hr).1, (ih hr).2⟩
    | none =>
      rw [hr] at h
      by_cases ha : key a = k
      · rw [if_pos ha] at h
        injection h with h
        subst h
        exact ⟨List.mem_cons_self _ _, ha⟩
      · rw [if_neg ha] at h
        exact absurd h (by simp)

theorem findLastBy_isSome_of_mem {α : Type} (key : α → String) (l : List α) (x : α)
    (hx : x ∈ l) : (findLastBy key l (key x)).isSome := by
  induction l with
  | nil => simp at hx
  | cons a rest ih =>
    simp only [findLastBy]
    cases hr : findLastBy key rest (key x) with
    | some y => simp
    | none =>
      rcases List.mem_cons.mp hx with h | h
      · subst h
        simp
      · have := ih h
        rw [hr] at this
        simp at this

theorem findNode_some (nodes : List WbsNode) (id : String) (n : WbsNode)
    (h : findNode nodes id = some n) : n ∈ nodes ∧ n.id = id :=
  findLastBy_some WbsNode.id nodes id n h

theorem findNode_isSome_of_mem (nodes : List WbsNode) (n : WbsNode) (hn : n ∈ nodes) :
    (findNode nodes n.id).isSome :=
  findLastBy_isSome_of_mem WbsNode.id nodes n hn

theorem nodup_id_inj (nodes : List WbsNode) (hnd : (nodes.map WbsNode.id).Nodup)
    (x y : WbsNode) (hx : x ∈ nodes) (hy : y ∈ nodes) (hxy : x.id = y.id) : x = y :=
  List.inj_on_of_nodup_map hnd hx hy hxy

theorem findNode_self (nodes : List WbsNode) (n : WbsNode)
    (hnd : (nodes.map WbsNode.id).Nodup) (hn : n ∈ nodes) :
    findNode nodes n.id = some n := by
  have h1 := findNode_isSome_of_mem nodes n hn
  obtain ⟨m, hm⟩ := Option.isSome_iff_exists.mp h1
  have h2 := findNode_some nodes n.id m hm
  have := nodup_id_inj nodes hnd m n h2.1 hn h2.2
  rw [hm, this]

/-! ## Dedup lemmas -/

theorem mem_dedupFirstAux (l : List String) :
    ∀ (seen : List String) (a : String),
      a ∈ dedupFirstAux seen l ↔ a ∈ l ∧ a ∉ seen := by
  induction l with
  | nil => intro seen a; simp [dedupFirstAux]
  | cons x rest ih =>
    intro seen a
    by_cases hx : x ∈ seen
    · simp only [dedupFirstAux, if_pos hx, ih, List.mem_cons]
      constructor
      · rintro ⟨h1, h2⟩
        exact ⟨Or.inr h1, h2⟩
      · rintro ⟨h1 | h1, h2⟩
        · subst h1; exact absurd hx h2
        · exact ⟨h1, h2⟩
    · simp only [dedupFirstAux, if_neg hx, List.mem_cons, ih]
      constructor
      · rintro (h | ⟨h1, h2⟩)
        · subst h; exact ⟨Or.inl rfl, hx⟩
        · exact ⟨Or.inr h1, fun hs => h2 (Or.inr hs)⟩
      · rintro ⟨h1 | h1, h2⟩
        · subst h1; exact Or.inl rfl
        · by_cases hax : a = x
          · subst hax; exact Or.inl rfl
          · exact Or.inr ⟨h1, fun hm => hm.elim hax h2⟩

theorem nodup_dedupFirstAux (l : List String) :
    ∀ seen : List String, (dedupFirstAux seen l).Nodup := by
  induction l with
  | nil => intro seen; simp [dedupFirstAux]
  | cons x rest ih =>
    intro seen
    by_cases hx : x ∈ seen
    · simpa [dedupFirstAux, hx] using ih seen
    · simp only [dedupFirstAux, if_neg hx, List.nodup_cons]
      refine ⟨?_, ih _⟩
      intro hmem
      exact ((mem_dedupFirstAux rest (x :: seen) x).mp hmem).2 (List.mem_cons_self x seen)

theorem mem_dedupFirst (l : List String) (a : String) : a ∈ dedupFirst l ↔ a ∈ l := by
  simp [dedupFirst, mem_dedupFirstAux]

theorem nodup_dedupFirst (l : List String) : (dedupFirst l).Nodup :=
  nodup_dedupFirstAux l []

/-! ## Checklist fold lemmas and claim C4 -/

theorem group_fold_lookup (qs : List HseQuestion) (tid : String) :
    ∀ m : List (String × List HseQuestion),
      (lookupA (qs.foldl
          (fun m q => setA m q.topic_id (((lookupA m q.topic_id).getD []) ++ [q])) m)
        tid).getD []
        = (lookupA m tid).getD [] ++ qs.filter (fun q => q.topic_id == tid) := by
  induction qs with
  | nil => intro m; simp
  | cons q rest ih =>
    intro m
    simp only [List.foldl_cons]
    rw [ih]
    by_cases h : q.topic_id = tid
    · rw [h, lookupA_setA_self]
      simp [List.filter_cons, h, List.append_assoc]
    · rw [lookupA_setA_ne _ _ _ _ (Ne.symm h)]
      simp [List.filter_cons, h]

theorem resp_fold_lookup (rs : List HseResponse) (qid : String) :
    ∀ m : List (String × HseResponse),
      lookupA (rs.foldl (fun m r => setA m r.question_id r) m) qid
        = match findLastBy HseResponse.question_id rs qid with
          | some r => some r
          | none => lookupA m qid := by
  induction rs with
  | nil => intro m; simp [findLastBy]
  | cons r rest ih =>
    intro m
    simp only [List.foldl_cons, findLastBy]
    rw [ih]
    cases hr : findLastBy HseResponse.question_id rest qid with
    | some y => rfl
    | none =>
      by_cases h : r.question_id = qid
      · rw [if_pos h, ← h, lookupA_setA_self]
      · rw [if_neg h, lookupA_setA_ne _ _ _ _ (Ne.symm h)]

theorem resp_fold_lookup_nil (rs : List HseResponse) (qid : String) :
    lookupA (rs.foldl (fun m r => setA m r.question_id r) []) qid
      = findLastBy HseResponse.question_id rs qid := by
  rw [resp_fold_lookup]
  cases findLastBy HseResponse.question_id rs qid <;> rfl

/-- Claim C4: `buildChecklist` returns one entry per topic of `allTopics`
whose id occurs in `attachedTopicIds`, in `allTopics` order; each entry
carries exactly the questions of `allQuestions` with that `topic_id`, in
`allQuestions` order, each paired with the last response in `responses`
for that question id (or none); for an empty `attachedTopicIds` the result
is empty (which also follows from the filter being empty). -/
theorem buildChecklist_spec (allTopics : List HseTopic) (allQuestions : List HseQuestion)
    (attachedTopicIds : List String) (responses : List HseResponse) :
    buildChecklist allTopics allQuestions attachedTopicIds responses
      = (allTopics.filter (fun t => attachedTopicIds.contains t.id)).map
          (fun t =>
            { topic := t
              questions := (allQuestions.filter (fun q => q.topic_id == t.id)).map
                (fun q => (q, findLastBy HseResponse.question_id responses q.id)) }) := by
  unfold buildChecklist
  cases attachedTopicIds with
  | nil => simp
  | cons a ids =>
    rw [show (a :: ids).isEmpty = false from rfl]
    rw [if_neg (by simp)]
    have hfun : ∀ t : HseTopic,
        (fun t : HseTopic =>
          TaskHseChecklist.mk t
            (((lookupA (allQuestions.foldl
                (fun m q => setA m q.topic_id (((lookupA m q.topic_id).getD []) ++ [q])) [])
                t.id).getD []).map
              (fun q => (q, lookupA (responses.foldl (fun m r => setA m r.question_id r) []) q.id)))) t
        = (fun t : HseTopic =>
            TaskHseChecklist.mk t
              ((allQuestions.filter (fun q => q.topic_id == t.id)).map
                (fun q => (q, findLastBy HseResponse.question_id responses q.id)))) t := by
      intro t
      simp only
      congr 1
      rw [group_fold_lookup]
      simp only [lookupA, Option.getD_none, List.nil_append]
      apply List.map_congr_left
      intro q _
      rw [resp_fold_lookup_nil]
    exact List.map_congr_left (fun t _ => hfun t)

/-! ## Claim C5: dashboard loader stops on a membership error -/

/-- Claim C5: when the project-memberships query fails, the dashboard loader
records exactly that error message, clears the item list and the jobcard
count map, stops loading, and issues no further query (the issued-query list
is exactly the single membership query). -/
theorem fetchItems_membership_error (b : DashBackend) (s0 : DashState) (msg : String)
    (h : b.memberships.error = some msg) :
    fetchItems b s0
      = ({ s0 with loading := false, error := some msg, items := [], jobcardCounts := [] },
         [DashQuery.memberships]) := by
  unfold fetchItems
  rw [h]

theorem fetchItems_membership_error_witness :
    fetchItems
      { memberships := { error := some "permission denied", data := none }
        itemsFor := fun _ => { error := none, data := some [] }
        tasksFor := fun _ => { error := none, data := some [] } }
      { items := [⟨"it1", "10305", 1, "old item"⟩], rolesByProject := []
        jobcardCounts := [("10305:1", 2)], loading := false, error := none }
      = ({ items := [], rolesByProject := [], jobcardCounts := []
           loading := false, error := some "permission denied" },
         [DashQuery.memberships]) :=
  fetchItems_membership_error _ _ "permission denied" rfl

/-! ## Claim C7: admin role writes -/

/-- Claim C7: the selectable roles are exactly none/member/manager/admin; for
a selected user, choosing none issues a delete of that membership row and (on
success, and unconditionally in the optimistic variant) removes the local map
entry; choosing a real role issues an upsert keyed on
`(projectnumber, user_id)` and sets the map entry to that role; and whatever
the write outcome, the saving mark of the project ends up cleared (`false`),
never stuck. -/
theorem setRole_spec (user pn : String) (role : Role) (err : Option String)
    (st : AdminPageState) (m : List (String × Role))
    (hu : user ≠ "")
    (hst : (st.memberMap.map Prod.fst).Nodup)
    (hm : (m.map Prod.fst).Nodup) :
    (∀ r : Role, r ∈ ROLE_OPTIONS)
    ∧ (setRole user pn Role.none err st).snd = [AdminWrite.deleteMember user pn]
    ∧ (err = none → lookupA (setRole user pn Role.none err st).fst.memberMap pn = none)
    ∧ (∀ r : Role, r ≠ Role.none →
        (setRole user pn r err st).snd
          = [AdminWrite.upsertMember user pn r "projectnumber,user_id"])
    ∧ (∀ r : Role, r ≠ Role.none → err = none →
        lookupA (setRole user pn r err st).fst.memberMap pn = some r)
    ∧ lookupA (setRole user pn role err st).fst.savingProject pn = some false
    ∧ (setRoleOpt user pn Role.none m).snd = [AdminWrite.deleteMember user pn]
    ∧ lookupA (setRoleOpt user pn Role.none m).fst pn = none
    ∧ (∀ r : Role, r ≠ Role.none →
        (setRoleOpt user pn r m).snd
          = [AdminWrite.upsertMember user pn r "projectnumber,user_id"]
          ∧ lookupA (setRoleOpt user pn r m).fst pn = some r) := by
  refine ⟨?_, ?_, ?_, ?_, ?_, ?_, ?_, ?_, ?_⟩
  · intro r; cases r <;> simp [ROLE_OPTIONS]
  · simp [setRole, hu]
    cases err <;> rfl
  · intro herr
    subst herr
    simp only [setRole, if_neg hu]
    exact lookupA_removeA_self _ _ hst
  · intro r hr
    cases r with
    | none => exact absurd rfl hr
    | member => simp [setRole, hu]; cases err <;> rfl
    | manager => simp [setRole, hu]; cases err <;> rfl
    | admin => simp [setRole, hu]; cases err <;> rfl
  · intro r hr herr
    subst herr
    cases r with
    | none => exact absurd rfl hr
    | member => simp only [setRole, if_neg hu]; exact lookupA_setA_self _ _ _
    | manager => simp only [setRole, if_neg hu]; exact lookupA_setA_self _ _ _
    | admin => simp only [setRole, if_neg hu]; exact lookupA_setA_self _ _ _
  · cases role <;> cases err <;>
      simp only [setRole, if_neg hu] <;>
      exact lookupA_setA_self _ _ _
  · simp [setRoleOpt, hu]
  · simp only [setRoleOpt, if_neg hu]
    exact lookupA_removeA_self _ _ hm
  · intro r hr
    cases r with
    | none => exact absurd rfl hr
    | member => exact ⟨by simp [setRoleOpt, hu], by
        simp only [setRoleOpt, if_neg hu]; exact lookupA_setA_self _ _ _⟩
    | manager => exact ⟨by simp [setRoleOpt, hu], by
        simp only [setRoleOpt, if_neg hu]; exact lookupA_setA_self _ _ _⟩
    | admin => exact ⟨by simp [setRoleOpt, hu], by
        simp only [setRoleOpt, if_neg hu]; exact lookupA_setA_self _ _ _⟩

theorem setRole_spec_witness :
    lookupA (setRole "u-1" "10305" Role.manager none
        { memberMap := [("10200", Role.member)], savingProject := [] }).fst.memberMap
      "10305" = some Role.manager
    ∧ lookupA (setRole "u-1" "10305" Role.manager none
        { memberMap := [("10200", Role.member)], savingProject := [] }).fst.savingProject
      "10305" = some false :=
  have h := setRole_spec "u-1" "10305" Role.manager none
    { memberMap := [("10200", Role.member)], savingProject := [] } []
    (by decide) (by decide) (by decide)
  ⟨h.2.2.2.2.1 Role.manager (by decide) rfl, h.2.2.2.2.2.1⟩

/-! ## Claim C9: jobcard count map -/

theorem sumCounts_cons (e : String × Nat) (m : List (String × Nat)) :
    sumCounts (e :: m) = e.snd + sumCounts m := by
  simp [sumCounts]

theorem sumCounts_setA_incr (m : List (String × Nat)) (k : String) :
    sumCounts (setA m k ((lookupA m k).getD 0 + 1)) = sumCounts m + 1 := by
  induction m with
  | nil => simp [setA, lookupA, sumCounts]
  | cons e rest ih =>
    by_cases h : e.fst = k
    · simp only [setA, if_pos h, lookupA, sumCounts_cons, Option.getD_some]
      omega
    · simp only [setA, if_neg h, lookupA, if_neg h, sumCounts_cons, ih]
      omega

theorem count_fold_sum (tasks : List TaskRow) :
    ∀ m : List (String × Nat),
      sumCounts (tasks.foldl
        (fun map t =>
          match jsNumber t.item_seq with
          | none => map
          | some seqNum =>
            if t.projectnumber = "" then map
            else
              let k := keyOf t.projectnumber seqNum
              setA map k ((lookupA map k).getD 0 + 1)) m)
        = sumCounts m
          + (tasks.filter
              (fun t => t.projectnumber != "" && (jsNumber t.item_seq).isSome)).length := by
  induction tasks with
  | nil => intro m; simp
  | cons t rest ih =>
    intro m
    simp only [List.foldl_cons, List.filter_cons]
    cases hj : jsNumber t.item_seq with
    | none => simp [hj, ih]
    | some seqNum =>
      by_cases hp : t.projectnumber = ""
      · simp [hj, hp, ih]
      · simp only [hj, if_neg hp]
        rw [ih, sumCounts_setA_incr]
        have hpred : (t.projectnumber != "" && (Option.some seqNum).isSome) = true := by
          simp [hp]
        rw [if_pos hpred, List.length_cons]
        omega

/-- Claim C9: the counts in `buildCountMap` sum to the number of task rows
with a non-empty (truthy) `projectnumber` and an `item_seq` that `Number()`
converts to a finite value; rows failing either test contribute nothing; and
two rows with `item_seq` values `'3'` (string) and `3` (number) under the same
project are counted under the same key. -/
theorem buildCountMap_spec :
    (∀ tasks : List TaskRow,
      sumCounts (buildCountMap tasks)
        = (tasks.filter
            (fun t => t.projectnumber != "" && (jsNumber t.item_seq).isSome)).length)
    ∧ (∀ pn : String, pn ≠ "" →
        buildCountMap [⟨pn, ItemSeq.str "3"⟩, ⟨pn, ItemSeq.num 3⟩] = [(keyOf pn 3, 2)]) := by
  constructor
  · intro tasks
    unfold buildCountMap
    rw [count_fold_sum]
    simp [sumCounts]
  · intro pn hpn
    have h3 : jsNumber (ItemSeq.str "3") = some 3 := by decide
    have h3b : jsNumber (ItemSeq.num 3) = some 3 := rfl
    unfold buildCountMap
    simp only [List.foldl_cons, List.foldl_nil, h3, h3b, if_neg hpn]
    simp [setA, lookupA]

theorem buildCountMap_spec_witness :
    sumCounts (buildCountMap
        [⟨"10305", ItemSeq.str "3"⟩, ⟨"10305", ItemSeq.num 3⟩, ⟨"", ItemSeq.num 1⟩,
         ⟨"10306", ItemSeq.str "abc"⟩, ⟨"10306", ItemSeq.jsNull⟩])
      = 3
    ∧ buildCountMap [⟨"10305", ItemSeq.str "3"⟩, ⟨"10305", ItemSeq.num 3⟩]
        = [(keyOf "10305" 3, 2)] :=
  ⟨by
    rw [buildCountMap_spec.1]
    decide,
   buildCountMap_spec.2 "10305" (by decide)⟩

/-! ## Claim C10: project-item page parseInt guard -/

theorem parseIntCore_eq_none_iff (cs : List Char) :
    parseIntCore cs = none ↔ firstIsSignedDigit cs = false := by
  simp only [parseIntCore, firstIsSignedDigit]
  cases h : (if cs.head? = some '-' ∨ cs.head? = some '+' then cs.tail else cs) with
  | nil => simp
  | cons d t =>
    by_cases hd : d.isDigit
    · simp [List.takeWhile_cons, hd]
    · simp [List.takeWhile_cons, hd]

theorem jsParseInt10_eq_none_iff (s : String) :
    jsParseInt10 s = none ↔ beginsWithSignedDigitAfterWs s = false := by
  unfold jsParseInt10 beginsWithSignedDigitAfterWs
  exact parseIntCore_eq_none_iff _

/-- Claim C10 counterexample: on the route parameter `" 3"` (leading space),
`parseInt` skips the whitespace and parses `3`, so the page renders — yet the
string does not begin with an optionally signed decimal digit, where the
claim's characterization demands a 404. -/
theorem page_whitespace_counterexample :
    beginsWithSignedDigit " 3" = false
    ∧ pageHandler "p" " 3" = PageResult.render "p" 3
    ∧ pageHandler "p" " 3" ≠ PageResult.notFound := by
  refine ⟨by decide, by decide, by decide⟩

/-- Claim C10 (amended): the page responds `notFound` exactly when
`Number.parseInt(item_seq, 10)` is NaN, i.e. when the string does not begin —
after skipping leading whitespace — with an optionally signed decimal digit;
a string with a numeric prefix such as `"3abc"` is accepted and the page
renders with the parsed integer. -/
theorem page_notFound_iff (projectnumber : String) :
    (∀ s : String,
      pageHandler projectnumber s = PageResult.notFound
        ↔ beginsWithSignedDigitAfterWs s = false)
    ∧ pageHandler projectnumber "3abc" = PageResult.render projectnumber 3 := by
  constructor
  · intro s
    have hiff := jsParseInt10_eq_none_iff s
    unfold pageHandler
    cases h : jsParseInt10 s with
    | none =>
      rw [h] at hiff
      simp only [eq_self_iff_true, true_iff] at hiff
      simp [hiff]
    | some n =>
      rw [h] at hiff
      simp only [reduceCtorEq, false_iff] at hiff
      simp [hiff]
  · have h : jsParseInt10 "3abc" = some 3 := by decide
    simp [pageHandler, h]

theorem page_notFound_iff_witness :
    pageHandler "10305" "3abc" = PageResult.render "10305" 3 :=
  (page_notFound_iff "10305").2

/-! ## Claim C6: dashboard items are filtered to membership projects -/

/-- Claim C6: after a successful membership query, any project-items query the
loader issues is filtered to exactly the distinct `projectnumber` values of
the membership rows (and such a query is issued whenever there is at least
one row); provided the backend honours the `.in` filter, every displayed item
belongs to a project with a membership row; with no membership rows, only the
membership query is issued and the item list is empty. -/
theorem fetchItems_member_filter (b : DashBackend) (s0 : DashState)
    (hok : b.memberships.error = none)
    (honest : ∀ pns rows, (b.itemsFor pns).data = some rows →
        ∀ it ∈ rows, it.projectnumber ∈ pns) :
    (∀ pns, DashQuery.projectItems pns ∈ (fetchItems b s0).snd →
        pns = dedupFirst ((b.memberships.data.getD []).map ProjectMembership.projectnumber)
        ∧ pns.Nodup
        ∧ (∀ s : String, s ∈ pns ↔
            ∃ mb ∈ b.memberships.data.getD [], mb.projectnumber = s))
    ∧ (∀ it ∈ (fetchItems b s0).fst.items,
        ∃ mb ∈ b.memberships.data.getD [], mb.projectnumber = it.projectnumber)
    ∧ (b.memberships.data.getD [] = [] →
        (fetchItems b s0).snd = [DashQuery.memberships]
        ∧ (fetchItems b s0).fst.items = [])
    ∧ (b.memberships.data.getD [] ≠ [] →
        DashQuery.projectItems
          (dedupFirst ((b.memberships.data.getD []).map ProjectMembership.projectnumber))
          ∈ (fetchItems b s0).snd) := by
  unfold fetchItems
  simp only [hok]
  by_cases hemp : (b.memberships.data.getD []).isEmpty = true
  · have hnil : b.memberships.data.getD [] = [] := by
      cases hd : b.memberships.data.getD [] with
      | nil => rfl
      | cons x xs => rw [hd] at hemp; simp [List.isEmpty] at hemp
    rw [if_pos hemp]
    refine ⟨?_, ?_, ?_, ?_⟩
    · intro pns hpns
      simp at hpns
    · intro it hit
      simp at hit
    · intro _; exact ⟨rfl, rfl⟩
    · intro hne; exact absurd hnil hne
  · have hne : b.memberships.data.getD [] ≠ [] := by
      intro hd; rw [hd] at hemp; exact hemp rfl
    rw [if_neg hemp]
    have hmemiff : ∀ s : String,
        s ∈ dedupFirst ((b.memberships.data.getD []).map ProjectMembership.projectnumber)
          ↔ ∃ mb ∈ b.memberships.data.getD [], mb.projectnumber = s := by
      intro s
      rw [mem_dedupFirst, List.mem_map]
    have hitems : ∀ it ∈ (b.itemsFor
          (dedupFirst ((b.memberships.data.getD []).map
            ProjectMembership.projectnumber))).data.getD [],
        ∃ mb ∈ b.memberships.data.getD [], mb.projectnumber = it.projectnumber := by
      intro it hit
      cases hd : (b.itemsFor (dedupFirst ((b.memberships.data.getD []).map
          ProjectMembership.projectnumber))).data with
      | none => rw [hd] at hit; simp at hit
      | some rows =>
        rw [hd] at hit
        simp only [Option.getD_some] at hit
        exact (hmemiff it.projectnumber).mp (honest _ rows hd it hit)
    cases hie : (b.itemsFor (dedupFirst ((b.memberships.data.getD []).map
        ProjectMembership.projectnumber))).error with
    | some msg =>
      simp only [hie]
      refine ⟨?_, ?_, ?_, ?_⟩
      · intro pns hpns
        simp only [List.mem_cons, List.not_mem_nil, or_false] at hpns
        rcases hpns with h | h
        · exact absurd h (by simp)
        · injection h with h
          subst h
          exact ⟨rfl, nodup_dedupFirst _, hmemiff⟩
      · intro it hit
        simp at hit
      · intro hd; exact absurd hd hne
      · intro _; simp
    | none =>
      simp only [hie]
      cases hte : (b.tasksFor (dedupFirst ((b.memberships.data.getD []).map
          ProjectMembership.projectnumber))).error with
      | some msg =>
        simp only [hte]
        refine ⟨?_, ?_, ?_, ?_⟩
        · intro pns hpns
          simp only [List.mem_cons, List.not_mem_nil, or_false] at hpns
          rcases hpns with h | h | h
          · exact absurd h (by simp)
          · injection h with h
            subst h
            exact ⟨rfl, nodup_dedupFirst _, hmemiff⟩
          · exact absurd h (by simp)
        · intro it hit
          exact hitems it hit
        · intro hd; exact absurd hd hne
        · intro _; simp
      | none =>
        simp only [hte]
        refine ⟨?_, ?_, ?_, ?_⟩
        · intro pns hpns
          simp only [List.mem_cons, List.not_mem_nil, or_false] at hpns
          rcases hpns with h | h | h
          · exact absurd h (by simp)
          · injection h with h
            subst h
            exact ⟨rfl, nodup_dedupFirst _, hmemiff⟩
          · exact absurd h (by simp)
        · intro it hit
          exact hitems it hit
        · intro hd; exact absurd hd hne
        · intro _; simp

theorem fetchItems_member_filter_witness :
    DashQuery.projectItems ["10305", "10306"]
      ∈ (fetchItems
          { memberships :=
              { error := none
                data := some [⟨"10305", "member"⟩, ⟨"10305", "manager"⟩, ⟨"10306", "admin"⟩] }
            itemsFor := fun _ => { error := none, data := some [] }
            tasksFor := fun _ => { error := none, data := some [] } }
          { items := [], rolesByProject := [], jobcardCounts := []
            loading := true, error := none }).snd := by
  have honest : ∀ (pns : List String) (rows : List ProjectItem),
      (({ error := none, data := some [] } : QueryReply ProjectItem)).data = some rows →
      ∀ it ∈ rows, it.projectnumber ∈ pns := by
    intro pns rows hrows it hit
    have hr : rows = [] := by simpa using hrows.symm
    subst hr
    exact absurd hit (List.not_mem_nil it)
  have h := (fetchItems_member_filter
      { memberships :=
          { error := none
            data := some [⟨"10305", "member"⟩, ⟨"10305", "manager"⟩, ⟨"10306", "admin"⟩] }
        itemsFor := fun _ => { error := none, data := some [] }
        tasksFor := fun _ => { error := none, data := some [] } }
      { items := [], rolesByProject := [], jobcardCounts := []
        loading := true, error := none }
      rfl (fun pns rows hrows => honest pns rows hrows)).2.2.2 (by decide)
  exact (by decide :
    dedupFirst ((((some [⟨"10305", "member"⟩, ⟨"10305", "manager"⟩,
        ⟨"10306", "admin"⟩] : Option (List ProjectMembership))).getD []).map
      ProjectMembership.projectnumber) = ["10305", "10306"]) ▸ h

/-! ## WBS path map: totality and memoization correctness -/

theorem append_code_ne_empty (a b : String) : a ++ "-" ++ b ≠ "" := by
  intro h
  have h2 := congrArg String.length h
  rw [String.length_append, String.length_append] at h2
  have h3 : ("-" : String).length = 1 := rfl
  have h4 : ("" : String).length = 0 := rfl
  omega

theorem resolvePure_succ_none (nodes : List WbsNode) (base : String) (f : Nat) (id : String)
    (hn : findNode nodes id = none) :
    resolvePure nodes base (f + 1) id = some base := by
  simp only [resolvePure, hn]

theorem resolvePure_succ_root (nodes : List WbsNode) (base : String) (f : Nat) (id : String)
    (node : WbsNode) (hn : findNode nodes id = some node) (hp : parentKey node = none) :
    resolvePure nodes base (f + 1) id = some (base ++ "-" ++ node.code) := by
  simp only [resolvePure, hn, hp]

theorem resolvePure_succ_parent (nodes : List WbsNode) (base : String) (f : Nat) (id : String)
    (node : WbsNode) (p : String)
    (hn : findNode nodes id = some node) (hp : parentKey node = some p) :
    resolvePure nodes base (f + 1) id
      = (resolvePure nodes base f p).map (fun pp => pp ++ "-" ++ node.code) := by
  simp only [resolvePure, hn, hp]

theorem resolveFuel_succ_memo (nodes : List WbsNode) (base : String) (f : Nat) (id : String)
    (pm : List (String × String)) (hm : truthyOpt (lookupA pm id) = true) :
    resolveFuel nodes base (f + 1) id pm = some ((lookupA pm id).getD "", pm) := by
  simp only [resolveFuel, if_pos hm]

theorem resolveFuel_succ_missing (nodes : List WbsNode) (base : String) (f : Nat) (id : String)
    (pm : List (String × String)) (hm : ¬truthyOpt (lookupA pm id) = true)
    (hn : findNode nodes id = none) :
    resolveFuel nodes base (f + 1) id pm = some (base, pm) := by
  simp only [resolveFuel, if_neg hm, hn]

theorem resolveFuel_succ_root (nodes : List WbsNode) (base : String) (f : Nat) (id : String)
    (pm : List (String × String)) (node : WbsNode)
    (hm : ¬truthyOpt (lookupA pm id) = true)
    (hn : findNode nodes id = some node) (hp : parentKey node = none) :
    resolveFuel nodes base (f + 1) id pm
      = some (base ++ "-" ++ node.code, setA pm id (base ++ "-" ++ node.code)) := by
  simp only [resolveFuel, if_neg hm, hn, hp]

theorem resolveFuel_succ_parent (nodes : List WbsNode) (base : String) (f : Nat) (id : String)
    (pm : List (String × String)) (node : WbsNode) (p : String)
    (hm : ¬truthyOpt (lookupA pm id) = true)
    (hn : findNode nodes id = some node) (hp : parentKey node = some p) :
    resolveFuel nodes base (f + 1) id pm
      = match resolveFuel nodes base f p pm with
        | none => none
        | some (parentPath, pm1) =>
          some (parentPath ++ "-" ++ node.code, setA pm1 id (parentPath ++ "-" ++ node.code)) := by
  simp only [resolveFuel, if_neg hm, hn, hp]

theorem resolvePure_mono (nodes : List WbsNode) (base : String) :
    ∀ (f f' : Nat) (id s : String), f ≤ f' →
      resolvePure nodes base f id = some s → resolvePure nodes base f' id = some s := by
  intro f
  induction f with
  | zero => intro f' id s _ h; simp [resolvePure] at h
  | succ g ih =>
    intro f' id s hle h
    cases f' with
    | zero => omega
    | succ g' =>
      cases hn : findNode nodes id with
      | none =>
        rw [resolvePure_succ_none nodes base g id hn] at h
        rw [resolvePure_succ_none nodes base g' id hn]
        exact h
      | some node =>
        cases hp : parentKey node with
        | none =>
          rw [resolvePure_succ_root nodes base g id node hn hp] at h
          rw [resolvePure_succ_root nodes base g' id node hn hp]
          exact h
        | some p =>
          rw [resolvePure_succ_parent nodes base g id node p hn hp] at h
          rw [resolvePure_succ_parent nodes base g' id node p hn hp]
          cases hr : resolvePure nodes base g p with
          | none => rw [hr] at h; simp at h
          | some t =>
            rw [hr] at h
            rw [ih g' p t (by omega) hr]
            exact h

theorem resolvePure_of_findNode_none (nodes : List WbsNode) (base : String)
    (f : Nat) (p : String) (hn : findNode nodes p = none) (hf : 1 ≤ f) :
    resolvePure nodes base f p = some base := by
  cases f with
  | zero => omega
  | succ g => exact resolvePure_succ_none nodes base g p hn

theorem resolvePure_total (nodes : List WbsNode) (base : String) (rank : String → Nat)
    (hA : AcyclicRanked nodes rank) :
    ∀ (f : Nat) (id : String), 1 ≤ f →
      ((findNode nodes id).isSome → rank id + 2 ≤ f) →
      (resolvePure nodes base f id).isSome := by
  intro f
  induction f with
  | zero => intro id h1 _; omega
  | succ g ih =>
    intro id h1 h2
    cases hn : findNode nodes id with
    | none => rw [resolvePure_succ_none nodes base g id hn]; rfl
    | some node =>
      have hnode := findNode_some nodes id node hn
      cases hp : parentKey node with
      | none => rw [resolvePure_succ_root nodes base g id node hn hp]; rfl
      | some p =>
        have hrank : rank id + 2 ≤ g + 1 := h2 (by rw [hn]; rfl)
        have hrec : (resolvePure nodes base g p).isSome := by
          apply ih p (by omega)
          intro hps
          obtain ⟨m, hm⟩ := Option.isSome_iff_exists.mp hps
          have hmm := findNode_some nodes p m hm
          have hlt := hA.2 node hnode.1 m hmm.1 (by rw [hp, hmm.2])
          rw [hmm.2, hnode.2] at hlt
          omega
        obtain ⟨t, ht⟩ := Option.isSome_iff_exists.mp hrec
        rw [resolvePure_succ_parent nodes base g id node p hn hp, ht]
        rfl

/-- The key sub-computation: what the parent resolution of a found node must
produce — the pure resolution at full fuel, defaulted to the base code. -/
theorem resolvePure_parent_step (nodes : List WbsNode) (base : String)
    (rank : String → Nat) (hA : AcyclicRanked nodes rank)
    (id : String) (node : WbsNode) (p : String)
    (hn : findNode nodes id = some node) (hp : parentKey node = some p) :
    resolvePure nodes base nodes.length p
      = some ((resolvePure nodes base (nodes.length + 1) p).getD base) := by
  have hnode := findNode_some nodes id node hn
  have hlen : 1 ≤ nodes.length := List.length_pos.mpr (List.ne_nil_of_mem hnode.1)
  cases hps : findNode nodes p with
  | none =>
    rw [resolvePure_of_findNode_none nodes base nodes.length p hps hlen,
        resolvePure_of_findNode_none nodes base (nodes.length + 1) p hps (by omega)]
    rfl
  | some m =>
    have hmm := findNode_some nodes p m hps
    have hlt := hA.2 node hnode.1 m hmm.1 (by rw [hp, hmm.2])
    rw [hmm.2, hnode.2] at hlt
    have hidlt : rank id < nodes.length := by
      have := hA.1 node hnode.1
      rw [hnode.2] at this
      exact this
    have htot : (resolvePure nodes base nodes.length p).isSome := by
      apply resolvePure_total nodes base rank hA nodes.length p hlen
      intro _
      omega
    obtain ⟨w, hw⟩ := Option.isSome_iff_exists.mp htot
    rw [hw, resolvePure_mono nodes base nodes.length (nodes.length + 1) p w (by omega) hw]
    rfl

/-- Memoization correctness: under the memo-table invariant, `resolve`
succeeds with fuel above the rank, returns the unmemoized value, and the
memo table only grows, stays invariant, and afterwards contains the resolved
id whenever it names a node. -/
theorem resolveFuel_spec (nodes : List WbsNode) (base : String) (rank : String → Nat)
    (hA : AcyclicRanked nodes rank) :
    ∀ (f : Nat) (id : String) (pm : List (String × String)),
      PathInv nodes base pm → 1 ≤ f →
      ((findNode nodes id).isSome → rank id + 2 ≤ f) →
      ∃ pm',
        resolveFuel nodes base f id pm
          = some ((resolvePure nodes base (nodes.length + 1) id).getD base, pm')
        ∧ PathInv nodes base pm'
        ∧ (∀ k v, lookupA pm k = some v → lookupA pm' k = some v)
        ∧ ((findNode nodes id).isSome → (lookupA pm' id).isSome) := by
  intro f
  induction f with
  | zero => intro id pm _ h1 _; omega
  | succ g ih =>
    intro id pm hInv h1 h2
    by_cases hm : truthyOpt (lookupA pm id) = true
    · cases hl : lookupA pm id with
      | none => rw [hl] at hm; simp [truthyOpt] at hm
      | some v =>
        obtain ⟨hfind, hres, hne⟩ := hInv id v hl
        refine ⟨pm, ?_, hInv, fun k v h => h, fun _ => by rw [hl]; rfl⟩
        rw [resolveFuel_succ_memo nodes base g id pm hm, hl, hres]
        rfl
    · cases hn : findNode nodes id with
      | none =>
        refine ⟨pm, ?_, hInv, fun k v h => h, fun hs => by simp at hs⟩
        rw [resolveFuel_succ_missing nodes base g id pm hm hn,
            resolvePure_of_findNode_none nodes base (nodes.length + 1) id hn (by omega)]
        rfl
      | some node =>
        have hnode := findNode_some nodes id node hn
        have hfindS : (findNode nodes id).isSome := by rw [hn]; rfl
        cases hp : parentKey node with
        | none =>
          have hval : resolvePure nodes base (nodes.length + 1) id
              = some (base ++ "-" ++ node.code) :=
            resolvePure_succ_root nodes base nodes.length id node hn hp
          refine ⟨setA pm id (base ++ "-" ++ node.code), ?_, ?_, ?_,
            fun _ => by rw [lookupA_setA_self]; rfl⟩
          · rw [resolveFuel_succ_root nodes base g id pm node hm hn hp, hval]
            rfl
          · intro k v hkv
            by_cases hk : k = id
            · subst hk
              rw [lookupA_setA_self] at hkv
              injection hkv with hkv
              subst hkv
              exact ⟨hfindS, hval, append_code_ne_empty _ _⟩
            · rw [lookupA_setA_ne _ _ _ _ hk] at hkv
              exact hInv k v hkv
          · intro k v hkv
            by_cases hk : k = id
            · subst hk
              obtain ⟨_, hres, _⟩ := hInv k v hkv
              rw [hres] at hval
              injection hval with hval
              rw [lookupA_setA_self, hval]
            · rw [lookupA_setA_ne _ _ _ _ hk]
              exact hkv
        | some p =>
          have hrank : rank id + 2 ≤ g + 1 := h2 hfindS
          have h2p : (findNode nodes p).isSome → rank p + 2 ≤ g := by
            intro hps
            obtain ⟨m, hmp⟩ := Option.isSome_iff_exists.mp hps
            have hmm := findNode_some nodes p m hmp
            have hlt := hA.2 node hnode.1 m hmm.1 (by rw [hp, hmm.2])
            rw [hmm.2, hnode.2] at hlt
            omega
          obtain ⟨pm1, hres1, hInv1, hext1, _⟩ := ih p pm hInv (by omega) h2p
          have hval : resolvePure nodes base (nodes.length + 1) id
              = some (((resolvePure nodes base (nodes.length + 1) p).getD base)
                  ++ "-" ++ node.code) := by
            rw [resolvePure_succ_parent nodes base nodes.length id node p hn hp,
                resolvePure_parent_step nodes base rank hA id node p hn hp]
            rfl
          refine ⟨setA pm1 id (((resolvePure nodes base (nodes.length + 1) p).getD base)
              ++ "-" ++ node.code), ?_, ?_, ?_,
            fun _ => by rw [lookupA_setA_self]; rfl⟩
          · rw [resolveFuel_succ_parent nodes base g id pm node p hm hn hp, hres1, hval]
            rfl
          · intro k v hkv
            by_cases hk : k = id
            · subst hk
              rw [lookupA_setA_self] at hkv
              injection hkv with hkv
              subst hkv
              exact ⟨hfindS, hval, append_code_ne_empty _ _⟩
            · rw [lookupA_setA_ne _ _ _ _ hk] at hkv
              exact hInv1 k v hkv
          · intro k v hkv
            by_cases hk : k = id
            · subst hk
              obtain ⟨_, hres, _⟩ := hInv k v hkv
              rw [hres] at hval
              injection hval with hval
              rw [lookupA_setA_self, hval]
            · rw [lookupA_setA_ne _ _ _ _ hk]
              exact hext1 k v hkv

theorem buildPathMap_fold (nodes : List WbsNode) (base : String) (rank : String → Nat)
    (hA : AcyclicRanked nodes rank) :
    ∀ (l : List WbsNode) (pm : List (String × String)),
      (∀ n ∈ l, n ∈ nodes) → PathInv nodes base pm →
      PathInv nodes base
          (l.foldl (fun pathMap n =>
            match resolveFuel nodes base (nodes.length + 1) n.id pathMap with
            | some (_, pm1) => pm1
            | none => pathMap) pm)
      ∧ (∀ k v, lookupA pm k = some v →
          lookupA (l.foldl (fun pathMap n =>
            match resolveFuel nodes base (nodes.length + 1) n.id pathMap with
            | some (_, pm1) => pm1
            | none => pathMap) pm) k = some v)
      ∧ (∀ n ∈ l, (lookupA (l.foldl (fun pathMap n =>
            match resolveFuel nodes base (nodes.length + 1) n.id pathMap with
            | some (_, pm1) => pm1
            | none => pathMap) pm) n.id).isSome) := by
  intro l
  induction l with
  | nil =>
    intro pm _ hInv
    exact ⟨hInv, fun k v h => h, by simp⟩
  | cons n rest ih =>
    intro pm hsub hInv
    have hnn : n ∈ nodes := hsub n (List.mem_cons_self n rest)
    have hfs : (findNode nodes n.id).isSome := findNode_isSome_of_mem nodes n hnn
    have hrk : (findNode nodes n.id).isSome → rank n.id + 2 ≤ nodes.length + 1 := by
      intro _
      have := hA.1 n hnn
      omega
    obtain ⟨pm1, hres1, hInv1, hext1, hpres1⟩ :=
      resolveFuel_spec nodes base rank hA (nodes.length + 1) n.id pm hInv (by omega) hrk
    simp only [List.foldl_cons, hres1]
    obtain ⟨hI, hE, hP⟩ := ih pm1 (fun x hx => hsub x (List.mem_cons_of_mem n hx)) hInv1
    refine ⟨hI, ?_, ?_⟩
    · intro k v hkv
      exact hE k v (hext1 k v hkv)
    · intro x hx
      rcases List.mem_cons.mp hx with hx1 | hx2
      · subst hx1
        obtain ⟨v, hv⟩ := Option.isSome_iff_exists.mp (hpres1 hfs)
        rw [hE x.id v hv]
        rfl
      · exact hP x hx2

theorem buildPathMap_inv (nodes : List WbsNode) (base : String) (rank : String → Nat)
    (hA : AcyclicRanked nodes rank) :
    PathInv nodes base (buildPathMap nodes base)
    ∧ ∀ n ∈ nodes, (lookupA (buildPathMap nodes base) n.id).isSome := by
  have h := buildPathMap_fold nodes base rank hA nodes []
    (fun x hx => hx) (by intro k v h; simp [lookupA] at h)
  exact ⟨h.1, h.2.2⟩

/-- The full characterization of the returned path map: it is defined exactly
on the ids carried by nodes of the list, with the unmemoized resolution as
value. -/
theorem buildPathMap_lookup (nodes : List WbsNode) (base : String) (rank : String → Nat)
    (hA : AcyclicRanked nodes rank) (k : String) :
    lookupA (buildPathMap nodes base) k
      = if (findNode nodes k).isSome
        then some ((resolvePure nodes base (nodes.length + 1) k).getD base)
        else none := by
  obtain ⟨hI, hP⟩ := buildPathMap_inv nodes base rank hA
  by_cases hs : (findNode nodes k).isSome
  · rw [if_pos hs]
    obtain ⟨x, hx⟩ := Option.isSome_iff_exists.mp hs
    have hxm := findNode_some nodes k x hx
    have hPx := hP x hxm.1
    rw [hxm.2] at hPx
    obtain ⟨v, hv⟩ := Option.isSome_iff_exists.mp hPx
    rw [hv, (hI k v hv).2.1]
    rfl
  · rw [if_neg hs]
    cases hl : lookupA (buildPathMap nodes base) k with
    | none => rfl
    | some v => exact absurd (hI k v hl).1 hs

/-- Claim C2: under acyclicity of the parent pointers, every `resolve` call
made from a reachable memo table succeeds within fuel `nodes.length + 1`
(the recursion terminates before the fuel runs out), and consequently
`buildPathMap` is total: the fuel fallback is never taken and every node id
is resolved into the returned map. -/
theorem resolve_terminates (nodes : List WbsNode) (base : String) (hA : Acyclic nodes) :
    (∀ (id : String) (pm : List (String × String)), PathInv nodes base pm →
      (resolveFuel nodes base (nodes.length + 1) id pm).isSome)
    ∧ ∀ n ∈ nodes, (lookupA (buildPathMap nodes base) n.id).isSome := by
  obtain ⟨rank, hA⟩ := hA
  constructor
  · intro id pm hInv
    have hrk : (findNode nodes id).isSome → rank id + 2 ≤ nodes.length + 1 := by
      intro hs
      obtain ⟨m, hm⟩ := Option.isSome_iff_exists.mp hs
      have hmm := findNode_some nodes id m hm
      have := hA.1 m hmm.1
      rw [hmm.2] at this
      omega
    obtain ⟨pm', hres, _, _, _⟩ :=
      resolveFuel_spec nodes base rank hA (nodes.length + 1) id pm hInv (by omega) hrk
    rw [hres]
    rfl
  · exact (buildPathMap_inv nodes base rank hA).2

theorem resolve_terminates_witness :
    (resolveFuel
        [⟨"a", "p", 1, none, "01", "r"⟩, ⟨"b", "p", 1, some "a", "02", "c"⟩]
        "10305-01" 3 "b" []).isSome :=
  (resolve_terminates
      [⟨"a", "p", 1, none, "01", "r"⟩, ⟨"b", "p", 1, some "a", "02", "c"⟩]
      "10305-01"
      ⟨fun s => if s = "b" then 1 else 0, by decide⟩).1 "b" []
    (by intro k v h; simp [lookupA] at h)

/-! ## Nodup, permutation and claim-side path lemmas -/

theorem findLastBy_eq_none {α : Type} (key : α → String) (l : List α) (k : String) :
    findLastBy key l k = none ↔ ∀ x ∈ l, key x ≠ k := by
  induction l with
  | nil => simp [findLastBy]
  | cons a rest ih =>
    simp only [findLastBy]
    cases hr : findLastBy key rest k with
    | some y =>
      have hy := findLastBy_some key rest k y hr
      simp only [reduceCtorEq, false_iff]
      intro hall
      exact hall y (List.mem_cons_of_mem a hy.1) hy.2
    | none =>
      constructor
      · intro h
        by_cases ha : key a = k
        · rw [if_pos ha] at h
          exact absurd h (by simp)
        · intro x hx
          rcases List.mem_cons.mp hx with hx1 | hx2
          · subst hx1; exact ha
          · exact ih.mp hr x hx2
      · intro hall
        rw [if_neg (hall a (List.mem_cons_self a rest))]

theorem findNode_eq_none_iff (nodes : List WbsNode) (k : String) :
    findNode nodes k = none ↔ ∀ x ∈ nodes, x.id ≠ k :=
  findLastBy_eq_none WbsNode.id nodes k

theorem findNode_perm (nodes nodes2 : List WbsNode)
    (hnd : (nodes.map WbsNode.id).Nodup) (hperm : nodes2.Perm nodes) (k : String) :
    findNode nodes2 k = findNode nodes k := by
  cases h2 : findNode nodes2 k with
  | none =>
    rw [findNode_eq_none_iff] at h2
    symm
    rw [findNode_eq_none_iff]
    intro x hx
    exact h2 x (hperm.symm.subset hx)
  | some x =>
    have hx := findNode_some nodes2 k x h2
    have hxn : x ∈ nodes := hperm.subset hx.1
    have hs : (findNode nodes x.id).isSome := findNode_isSome_of_mem nodes x hxn
    obtain ⟨y, hy⟩ := Option.isSome_iff_exists.mp hs
    have hym := findNode_some nodes x.id y hy
    have hxy : y = x := nodup_id_inj nodes hnd y x hym.1 hxn hym.2
    rw [hx.2] at hy
    rw [hy, hxy]

theorem resolvePure_perm (nodes nodes2 : List WbsNode) (base : String)
    (hnd : (nodes.map WbsNode.id).Nodup) (hperm : nodes2.Perm nodes) :
    ∀ (f : Nat) (k : String), resolvePure nodes2 base f k = resolvePure nodes base f k := by
  intro f
  induction f with
  | zero => intro k; rfl
  | succ g ih =>
    intro k
    cases hn : findNode nodes k with
    | none =>
      rw [resolvePure_succ_none nodes base g k hn,
          resolvePure_succ_none nodes2 base g k (by rw [findNode_perm nodes nodes2 hnd hperm, hn])]
    | some node =>
      have hn2 : findNode nodes2 k = some node := by
        rw [findNode_perm nodes nodes2 hnd hperm, hn]
      cases hp : parentKey node with
      | none =>
        rw [resolvePure_succ_root nodes base g k node hn hp,
            resolvePure_succ_root nodes2 base g k node hn2 hp]
      | some p =>
        rw [resolvePure_succ_parent nodes base g k node p hn hp,
            resolvePure_succ_parent nodes2 base g k node p hn2 hp, ih p]

theorem find?_id_nodup (nodes : List WbsNode) (hnd : (nodes.map WbsNode.id).Nodup)
    (m : WbsNode) (hm : m ∈ nodes) :
    nodes.find? (fun x => x.id == m.id) = some m := by
  have hex : (nodes.find? (fun x => x.id == m.id)).isSome := by
    rw [List.find?_isSome]
    exact ⟨m, hm, by simp⟩
  obtain ⟨x, hx⟩ := Option.isSome_iff_exists.mp hex
  have hxm := List.mem_of_find?_eq_some hx
  have hxp := List.find?_some hx
  simp only [beq_iff_eq] at hxp
  rw [hx, nodup_id_inj nodes hnd x m hxm hm hxp]

theorem naivePath_succ_root (nodes : List WbsNode) (base : String) (f : Nat)
    (n : WbsNode) (hpid : n.parent_id = none) :
    naivePath nodes base (f + 1) n = some (base ++ "-" ++ n.code) := by
  simp only [naivePath, hpid]

theorem naivePath_succ_dangling (nodes : List WbsNode) (base : String) (f : Nat)
    (n : WbsNode) (p : String) (hpid : n.parent_id = some p)
    (hf : nodes.find? (fun m => m.id == p) = none) :
    naivePath nodes base (f + 1) n = some (base ++ "-" ++ n.code) := by
  simp only [naivePath, hpid, hf]

theorem naivePath_succ_parent (nodes : List WbsNode) (base : String) (f : Nat)
    (n m : WbsNode) (p : String) (hpid : n.parent_id = some p)
    (hf : nodes.find? (fun x => x.id == p) = some m) :
    naivePath nodes base (f + 1) n
      = (naivePath nodes base f m).map (fun pp => pp ++ "-" ++ n.code) := by
  simp only [naivePath, hpid, hf]

theorem ancestors_succ_root (nodes : List WbsNode) (f : Nat)
    (n : WbsNode) (hpid : n.parent_id = none) :
    ancestors nodes (f + 1) n = some [n] := by
  simp only [ancestors, hpid]

theorem ancestors_succ_dangling (nodes : List WbsNode) (f : Nat)
    (n : WbsNode) (p : String) (hpid : n.parent_id = some p)
    (hf : nodes.find? (fun m => m.id == p) = none) :
    ancestors nodes (f + 1) n = some [n] := by
  simp only [ancestors, hpid, hf]

theorem ancestors_succ_parent (nodes : List WbsNode) (f : Nat)
    (n m : WbsNode) (p : String) (hpid : n.parent_id = some p)
    (hf : nodes.find? (fun x => x.id == p) = some m) :
    ancestors nodes (f + 1) n = (ancestors nodes f m).map (fun l => l ++ [n]) := by
  simp only [ancestors, hpid, hf]

theorem naivePath_mono (nodes : List WbsNode) (base : String) :
    ∀ (f f' : Nat) (n : WbsNode) (s : String), f ≤ f' →
      naivePath nodes base f n = some s → naivePath nodes base f' n = some s := by
  intro f
  induction f with
  | zero => intro f' n s _ h; simp [naivePath] at h
  | succ g ih =>
    intro f' n s hle h
    cases f' with
    | zero => omega
    | succ g' =>
      cases hpid : n.parent_id with
      | none =>
        rw [naivePath_succ_root nodes base g n hpid] at h
        rw [naivePath_succ_root nodes base g' n hpid]
        exact h
      | some p =>
        cases hf : nodes.find? (fun x => x.id == p) with
        | none =>
          rw [naivePath_succ_dangling nodes base g n p hpid hf] at h
          rw [naivePath_succ_dangling nodes base g' n p hpid hf]
          exact h
        | some m =>
          rw [naivePath_succ_parent nodes base g n m p hpid hf] at h
          rw [naivePath_succ_parent nodes base g' n m p hpid hf]
          cases hr : naivePath nodes base g m with
          | none => rw [hr] at h; simp at h
          | some t =>
            rw [hr] at h
            rw [ih g' m t (by omega) hr]
            exact h

theorem naivePath_total (nodes : List WbsNode) (base : String) (rank : String → Nat)
    (hA : AcyclicRanked nodes rank)
    (hne : ∀ n ∈ nodes, n.id ≠ "") :
    ∀ (f : Nat) (n : WbsNode), n ∈ nodes → rank n.id + 1 ≤ f →
      (naivePath nodes base f n).isSome := by
  intro f
  induction f with
  | zero => intro n _ h; omega
  | succ g ih =>
    intro n hn hr
    cases hpid : n.parent_id with
    | none => rw [naivePath_succ_root nodes base g n hpid]; rfl
    | some p =>
      cases hf : nodes.find? (fun x => x.id == p) with
      | none => rw [naivePath_succ_dangling nodes base g n p hpid hf]; rfl
      | some m =>
        have hmm := List.mem_of_find?_eq_some hf
        have hmp := List.find?_some hf
        simp only [beq_iff_eq] at hmp
        have hpne : p ≠ "" := by rw [← hmp]; exact hne m hmm
        have hpk : parentKey n = some p := by simp [parentKey, hpid, hpne]
        have hlt : rank m.id < rank n.id := hA.2 n hn m hmm (by rw [hpk, hmp])
        rw [naivePath_succ_parent nodes base g n m p hpid hf]
        obtain ⟨t, ht⟩ := Option.isSome_iff_exists.mp (ih m hmm (by omega))
        rw [ht]
        rfl

theorem ancestors_ne_nil (nodes : List WbsNode) :
    ∀ (f : Nat) (n : WbsNode) (l : List WbsNode), ancestors nodes f n = some l → l ≠ [] := by
  intro f
  induction f with
  | zero => intro n l h; simp [ancestors] at h
  | succ g ih =>
    intro n l h
    cases hpid : n.parent_id with
    | none =>
      rw [ancestors_succ_root nodes g n hpid] at h
      injection h with h
      subst h
      simp
    | some p =>
      cases hf : nodes.find? (fun x => x.id == p) with
      | none =>
        rw [ancestors_succ_dangling nodes g n p hpid hf] at h
        injection h with h
        subst h
        simp
      | some m =>
        rw [ancestors_succ_parent nodes g n m p hpid hf] at h
        cases hr : ancestors nodes g m with
        | none => rw [hr] at h; simp at h
        | some lm =>
          rw [hr] at h
          injection h with h
          subst h
          simp

theorem joinCodes_cons_cons (c c2 : String) (rest : List String) :
    joinCodes (c :: c2 :: rest) = c ++ "-" ++ joinCodes (c2 :: rest) := rfl

theorem joinCodes_append (xs : List String) (y : String) (hxs : xs ≠ []) :
    joinCodes (xs ++ [y]) = joinCodes xs ++ "-" ++ y := by
  induction xs with
  | nil => exact absurd rfl hxs
  | cons c rest ih =>
    cases rest with
    | nil => simp [joinCodes]
    | cons c2 rest2 =>
      have hh := ih (by simp)
      rw [List.cons_append] at hh
      rw [List.cons_append, List.cons_append, joinCodes_cons_cons, hh,
          joinCodes_cons_cons]
      simp [String.append_assoc]

theorem naivePath_eq_ancestors (nodes : List WbsNode) (base : String) :
    ∀ (f : Nat) (n : WbsNode),
      naivePath nodes base f n
        = (ancestors nodes f n).map
            (fun l => base ++ "-" ++ joinCodes (l.map WbsNode.code)) := by
  intro f
  induction f with
  | zero => intro n; rfl
  | succ g ih =>
    intro n
    cases hpid : n.parent_id with
    | none =>
      rw [naivePath_succ_root nodes base g n hpid, ancestors_succ_root nodes g n hpid]
      simp [joinCodes]
    | some p =>
      cases hf : nodes.find? (fun x => x.id == p) with
      | none =>
        rw [naivePath_succ_dangling nodes base g n p hpid hf,
            ancestors_succ_dangling nodes g n p hpid hf]
        simp [joinCodes]
      | some m =>
        rw [naivePath_succ_parent nodes base g n m p hpid hf,
            ancestors_succ_parent nodes g n m p hpid hf, ih m]
        cases ha : ancestors nodes g m with
        | none => rfl
        | some lm =>
          have hlm : lm ≠ [] := ancestors_ne_nil nodes g m lm ha
          have hmap : (lm ++ [n]).map WbsNode.code = lm.map WbsNode.code ++ [n.code] := by
            simp
          simp only [Option.map_some']
          congr 1
          rw [hmap, joinCodes_append (lm.map WbsNode.code) n.code (by simpa using hlm)]
          simp [String.append_assoc]

/-- Bridge between the source-derived resolution and the claim-side naive
recursion: for a forest with distinct non-empty ids they agree.  The strong
induction is over any bound on the rank of the node. -/
theorem resolvePure_eq_naivePath (nodes : List WbsNode) (base : String) (rank : String → Nat)
    (hnd : (nodes.map WbsNode.id).Nodup)
    (hne : ∀ n ∈ nodes, n.id ≠ "")
    (hclo : ∀ n ∈ nodes, n.parent_id = none ∨ ∃ m ∈ nodes, n.parent_id = some m.id)
    (hA : AcyclicRanked nodes rank) :
    ∀ (k : Nat) (n : WbsNode), n ∈ nodes → rank n.id < k →
      resolvePure nodes base (nodes.length + 1) n.id
        = naivePath nodes base (nodes.length + 1) n := by
  intro k
  induction k with
  | zero => intro n _ h; omega
  | succ k ih =>
    intro n hn hr
    have hfind : findNode nodes n.id = some n := findNode_self nodes n hnd hn
    cases hpid : n.parent_id with
    | none =>
      have hpk : parentKey n = none := by simp [parentKey, hpid]
      rw [resolvePure_succ_root nodes base nodes.length n.id n hfind hpk,
          naivePath_succ_root nodes base nodes.length n hpid]
    | some p =>
      rcases hclo n hn with hno | ⟨m, hm, hmp⟩
      · rw [hpid] at hno
        exact absurd hno (by simp)
      · rw [hpid] at hmp
        injection hmp with hmp
        have hmid : m.id = p := hmp.symm
        have hpne : p ≠ "" := by rw [← hmid]; exact hne m hm
        have hpk : parentKey n = some p := by simp [parentKey, hpid, hpne]
        have hfm : nodes.find? (fun x => x.id == p) = some m := by
          rw [← hmid]
          exact find?_id_nodup nodes hnd m hm
        have hfnp : findNode nodes p = some m := by
          rw [← hmid]
          exact findNode_self nodes m hnd hm
        have hlt : rank m.id < rank n.id := hA.2 n hn m hm (by rw [hpk, hmid])
        rw [hmid] at hlt
        have hlen : rank n.id < nodes.length := hA.1 n hn
        have hrtot : (resolvePure nodes base nodes.length p).isSome :=
          resolvePure_total nodes base rank hA nodes.length p (by omega) (fun _ => by omega)
        obtain ⟨w, hw⟩ := Option.isSome_iff_exists.mp hrtot
        have hwBIG : resolvePure nodes base (nodes.length + 1) p = some w :=
          resolvePure_mono nodes base nodes.length (nodes.length + 1) p w (by omega) hw
        have hntot : (naivePath nodes base nodes.length m).isSome := by
          apply naivePath_total nodes base rank hA hne nodes.length m hm
          rw [hmid]
          omega
        obtain ⟨u, hu⟩ := Option.isSome_iff_exists.mp hntot
        have huBIG : naivePath nodes base (nodes.length + 1) m = some u :=
          naivePath_mono nodes base nodes.length (nodes.length + 1) m u (by omega) hu
        have hIH := ih m hm (by rw [hmid]; omega)
        have hwu : w = u := by
          have heq := hIH
          rw [hmid] at heq
          rw [hwBIG, huBIG] at heq
          injection heq
        rw [resolvePure_succ_parent nodes base nodes.length n.id n p hfind hpk,
            naivePath_succ_parent nodes base nodes.length n m p hpid hfm,
            hw, hu, hwu]

/-! ## Claims C1, C3, C8: the WBS path map -/

/-- Claim C1 counterexample: with nodes X = {id "", code "A", parent null}
and Y = {id "y", code "B", parent_id ""}, the parent pointers form a forest
in the claim's sense (Y's parent_id is the id of another node of the list
and no parent chain is cyclic), yet the JS truthiness test
`if (node.parent_id)` treats the empty-string parent_id as "no parent", so
buildPathMap maps Y to "P-B" instead of the claimed base-then-ancestors path
"P-A-B". -/
theorem buildPathMap_claim1_counterexample :
    (⟨"y", "p", 1, some "", "B", "cy"⟩ : WbsNode).parent_id
        = some (⟨"", "p", 1, none, "A", "cx"⟩ : WbsNode).id
    ∧ (⟨"", "p", 1, none, "A", "cx"⟩ : WbsNode).parent_id = none
    ∧ Acyclic [⟨"", "p", 1, none, "A", "cx"⟩, ⟨"y", "p", 1, some "", "B", "cy"⟩]
    ∧ lookupA (buildPathMap
        [⟨"", "p", 1, none, "A", "cx"⟩, ⟨"y", "p", 1, some "", "B", "cy"⟩] "P") "y"
        = some "P-B"
    ∧ "P" ++ "-" ++ joinCodes
        ([(⟨"", "p", 1, none, "A", "cx"⟩ : WbsNode),
          ⟨"y", "p", 1, some "", "B", "cy"⟩].map WbsNode.code) = "P-A-B"
    ∧ ("P-B" : String) ≠ "P-A-B" :=
  ⟨rfl, rfl, ⟨fun s => if s = "y" then 1 else 0, by decide⟩, by decide, by decide, by decide⟩

/-- Claim C1 (amended): for a node list whose ids are pairwise distinct and
non-empty and whose parent pointers form a forest (each parent_id null or the
id of a node of the list, no cyclic parent chain), buildPathMap maps every
node's id to the base code followed by the hyphen-joined codes of the node's
ancestors from the topmost ancestor down to the node itself; in particular a
node with null parent_id is mapped to baseCode ++ "-" ++ its code. -/
theorem buildPathMap_ancestor_paths (nodes : List WbsNode) (baseCode : String)
    (hnd : (nodes.map WbsNode.id).Nodup)
    (hne : ∀ n ∈ nodes, n.id ≠ "")
    (hclo : ∀ n ∈ nodes, n.parent_id = none ∨ ∃ m ∈ nodes, n.parent_id = some m.id)
    (hA : Acyclic nodes) :
    ∀ n ∈ nodes,
      (∃ l, ancestors nodes (nodes.length + 1) n = some l
        ∧ lookupA (buildPathMap nodes baseCode) n.id
            = some (baseCode ++ "-" ++ joinCodes (l.map WbsNode.code)))
      ∧ (n.parent_id = none →
          lookupA (buildPathMap nodes baseCode) n.id
            = some (baseCode ++ "-" ++ n.code)) := by
  obtain ⟨rank, hA⟩ := hA
  intro n hn
  have hfind : findNode nodes n.id = some n := findNode_self nodes n hnd hn
  have hfs : (findNode nodes n.id).isSome := by rw [hfind]; rfl
  have hlook := buildPathMap_lookup nodes baseCode rank hA n.id
  rw [if_pos hfs] at hlook
  have hbridge := resolvePure_eq_naivePath nodes baseCode rank hnd hne hclo hA
      (rank n.id + 1) n hn (by omega)
  have hntot : (naivePath nodes baseCode (nodes.length + 1) n).isSome := by
    apply naivePath_total nodes baseCode rank hA hne (nodes.length + 1) n hn
    have := hA.1 n hn
    omega
  obtain ⟨u, hu⟩ := Option.isSome_iff_exists.mp hntot
  have hanc := naivePath_eq_ancestors nodes baseCode (nodes.length + 1) n
  rw [hu] at hanc
  cases hal : ancestors nodes (nodes.length + 1) n with
  | none => rw [hal] at hanc; simp at hanc
  | some l =>
    rw [hal] at hanc
    simp only [Option.map_some'] at hanc
    injection hanc with hanc
    constructor
    · refine ⟨l, rfl, ?_⟩
      rw [hlook, hbridge, hu, hanc]
      rfl
    · intro hpid
      rw [hlook, hbridge, naivePath_succ_root nodes baseCode nodes.length n hpid]
      rfl

theorem buildPathMap_ancestor_paths_witness :
    lookupA (buildPathMap
        [⟨"r", "p", 1, none, "01", "root"⟩, ⟨"c", "p", 1, some "r", "02", "kid"⟩]
        "10305-01") "c" = some "10305-01-01-02" := by
  have h := ((buildPathMap_ancestor_paths
      [⟨"r", "p", 1, none, "01", "root"⟩, ⟨"c", "p", 1, some "r", "02", "kid"⟩]
      "10305-01" (by decide) (by decide) (by decide)
      ⟨fun s => if s = "c" then 1 else 0, by decide⟩)
      ⟨"c", "p", 1, some "r", "02", "kid"⟩ (by decide)).1
  obtain ⟨l, hl, hlook⟩ := h
  have hanc : ancestors
      [⟨"r", "p", 1, none, "01", "root"⟩, ⟨"c", "p", 1, some "r", "02", "kid"⟩]
      ([(⟨"r", "p", 1, none, "01", "root"⟩ : WbsNode),
        ⟨"c", "p", 1, some "r", "02", "kid"⟩].length + 1)
      ⟨"c", "p", 1, some "r", "02", "kid"⟩
      = some [⟨"r", "p", 1, none, "01", "root"⟩, ⟨"c", "p", 1, some "r", "02", "kid"⟩] := by
    decide
  have hle : l = [⟨"r", "p", 1, none, "01", "root"⟩, ⟨"c", "p", 1, some "r", "02", "kid"⟩] := by
    have h2 := hanc.symm.trans hl
    injection h2 with h2
    exact h2.symm
  subst hle
  exact hlook

/-- Claim C3 counterexample: two nodes sharing the id "a" (each a root, so
the parent pointers trivially form a forest) make the returned map depend on
the input order: the later node wins the id map, so the two orders give
different path maps. -/
theorem buildPathMap_order_counterexample :
    ([(⟨"a", "p", 1, none, "2", "c2"⟩ : WbsNode), ⟨"a", "p", 1, none, "1", "c1"⟩].Perm
      [⟨"a", "p", 1, none, "1", "c1"⟩, ⟨"a", "p", 1, none, "2", "c2"⟩])
    ∧ Acyclic [⟨"a", "p", 1, none, "1", "c1"⟩, ⟨"a", "p", 1, none, "2", "c2"⟩]
    ∧ (⟨"a", "p", 1, none, "1", "c1"⟩ : WbsNode).parent_id = none
    ∧ (⟨"a", "p", 1, none, "2", "c2"⟩ : WbsNode).parent_id = none
    ∧ lookupA (buildPathMap
        [⟨"a", "p", 1, none, "1", "c1"⟩, ⟨"a", "p", 1, none, "2", "c2"⟩] "b") "a"
      = some "b-2"
    ∧ lookupA (buildPathMap
        [⟨"a", "p", 1, none, "2", "c2"⟩, ⟨"a", "p", 1, none, "1", "c1"⟩] "b") "a"
      = some "b-1"
    ∧ (some "b-2" : Option String) ≠ some "b-1" :=
  ⟨by decide, ⟨fun _ => 0, by decide⟩, rfl, rfl, by decide, by decide, by decide⟩

/-- Claim C3 (amended): for a forest-shaped node list with pairwise distinct,
non-empty ids, the memoized buildPathMap computes for every node exactly the
naive unmemoized recursion
path(n) = (if n has no parent in the list then baseCode else path(parent(n))) ++ "-" ++ n.code,
and the returned map, as a key-value mapping, is independent of the order of
the input list. -/
theorem buildPathMap_eq_naive_and_order_free (nodes : List WbsNode) (baseCode : String)
    (hnd : (nodes.map WbsNode.id).Nodup)
    (hne : ∀ n ∈ nodes, n.id ≠ "")
    (hclo : ∀ n ∈ nodes, n.parent_id = none ∨ ∃ m ∈ nodes, n.parent_id = some m.id)
    (hA : Acyclic nodes) :
    (∀ n ∈ nodes, lookupA (buildPathMap nodes baseCode) n.id
        = naivePath nodes baseCode (nodes.length + 1) n)
    ∧ (∀ nodes2 : List WbsNode, nodes2.Perm nodes →
        ∀ k, lookupA (buildPathMap nodes2 baseCode) k
          = lookupA (buildPathMap nodes baseCode) k) := by
  obtain ⟨rank, hA⟩ := hA
  constructor
  · intro n hn
    have hfs : (findNode nodes n.id).isSome := findNode_isSome_of_mem nodes n hn
    rw [buildPathMap_lookup nodes baseCode rank hA n.id, if_pos hfs,
        resolvePure_eq_naivePath nodes baseCode rank hnd hne hclo hA
          (rank n.id + 1) n hn (by omega)]
    obtain ⟨u, hu⟩ := Option.isSome_iff_exists.mp
      (naivePath_total nodes baseCode rank hA hne (nodes.length + 1) n hn
        (by have := hA.1 n hn; omega))
    rw [hu]
    rfl
  · intro nodes2 hperm k
    have hA2 : AcyclicRanked nodes2 rank := by
      constructor
      · intro n hn2
        rw [hperm.length_eq]
        exact hA.1 n (hperm.subset hn2)
      · intro n hn2 m hm2 hpk
        exact hA.2 n (hperm.subset hn2) m (hperm.subset hm2) hpk
    rw [buildPathMap_lookup nodes2 baseCode rank hA2 k,
        buildPathMap_lookup nodes baseCode rank hA k,
        findNode_perm nodes nodes2 hnd hperm k,
        resolvePure_perm nodes nodes2 baseCode hnd hperm (nodes2.length + 1) k,
        hperm.length_eq]

theorem buildPathMap_eq_naive_and_order_free_witness :
    lookupA (buildPathMap
        [⟨"c", "p", 1, some "r", "02", "kid"⟩, ⟨"r", "p", 1, none, "01", "root"⟩]
        "10305-01") "c"
      = lookupA (buildPathMap
        [⟨"r", "p", 1, none, "01", "root"⟩, ⟨"c", "p", 1, some "r", "02", "kid"⟩]
        "10305-01") "c" :=
  (buildPathMap_eq_naive_and_order_free
      [⟨"r", "p", 1, none, "01", "root"⟩, ⟨"c", "p", 1, some "r", "02", "kid"⟩]
      "10305-01" (by decide) (by decide) (by decide)
      ⟨fun s => if s = "c" then 1 else 0, by decide⟩).2
    [⟨"c", "p", 1, some "r", "02", "kid"⟩, ⟨"r", "p", 1, none, "01", "root"⟩]
    (by decide) "c"

/-- Claim C8 counterexample: X = {id "a", code "1", parent_id "zz"} has a
dangling parent ("zz" is no node's id), but a second node with the same id
"a" shadows X in the id map (`map.set` keeps the last), so buildPathMap maps
X's id to "B-2", not the claimed baseCode ++ "-" ++ X.code = "B-1". -/
theorem dangling_parent_counterexample :
    (⟨"a", "p", 1, some "zz", "1", "cx"⟩ : WbsNode).parent_id = some "zz"
    ∧ (⟨"a", "p", 1, some "zz", "1", "cx"⟩ : WbsNode).id ≠ "zz"
    ∧ (⟨"a", "p", 1, none, "2", "cy"⟩ : WbsNode).id ≠ "zz"
    ∧ lookupA (buildPathMap
        [⟨"a", "p", 1, some "zz", "1", "cx"⟩, ⟨"a", "p", 1, none, "2", "cy"⟩] "B") "a"
      = some "B-2"
    ∧ (some "B-2" : Option String)
        ≠ some ("B" ++ "-" ++ (⟨"a", "p", 1, some "zz", "1", "cx"⟩ : WbsNode).code) := by
  refine ⟨rfl, by decide, by decide, by decide, by decide⟩

/-- Claim C8 (amended): in a node list with pairwise distinct ids and acyclic
parent chains, every node whose parent_id is non-null but is not the id of
any node in the list is mapped by buildPathMap to baseCode ++ "-" ++ its
code, exactly as if it were a root; and a resolve call on an id with no node
returns the base code with the memo table unchanged, rather than failing. -/
theorem dangling_parent_root_path (nodes : List WbsNode) (baseCode : String)
    (hnd : (nodes.map WbsNode.id).Nodup)
    (hA : Acyclic nodes) :
    (∀ n ∈ nodes, ∀ p, n.parent_id = some p → (∀ m ∈ nodes, m.id ≠ p) →
        lookupA (buildPathMap nodes baseCode) n.id = some (baseCode ++ "-" ++ n.code))
    ∧ (∀ (f : Nat) (id : String) (pm : List (String × String)),
        1 ≤ f → PathInv nodes baseCode pm → findNode nodes id = none →
        resolveFuel nodes baseCode f id pm = some (baseCode, pm)) := by
  obtain ⟨rank, hA⟩ := hA
  constructor
  · intro n hn p hpid hdang
    have hfind : findNode nodes n.id = some n := findNode_self nodes n hnd hn
    have hfs : (findNode nodes n.id).isSome := by rw [hfind]; rfl
    rw [buildPathMap_lookup nodes baseCode rank hA n.id, if_pos hfs]
    by_cases hpe : p = ""
    · subst hpe
      have hpk : parentKey n = none := by simp [parentKey, hpid]
      rw [resolvePure_succ_root nodes baseCode nodes.length n.id n hfind hpk]
      rfl
    · have hpk : parentKey n = some p := by simp [parentKey, hpid, hpe]
      have hfnone : findNode nodes p = none := by
        rw [findNode_eq_none_iff]
        exact hdang
      have hlen : 1 ≤ nodes.length := List.length_pos.mpr (List.ne_nil_of_mem hn)
      rw [resolvePure_succ_parent nodes baseCode nodes.length n.id n p hfind hpk,
          resolvePure_of_findNode_none nodes baseCode nodes.length p hfnone hlen]
      rfl
  · intro f id pm hf hInv hnone
    cases f with
    | zero => omega
    | succ g =>
      have hm : ¬truthyOpt (lookupA pm id) = true := by
        cases hl : lookupA pm id with
        | none => simp [truthyOpt]
        | some v => exact absurd (hInv id v hl).1 (by rw [hnone]; simp)
      exact resolveFuel_succ_missing nodes baseCode g id pm hm hnone

theorem dangling_parent_root_path_witness :
    lookupA (buildPathMap [⟨"x", "p", 1, some "gone", "07", "solo"⟩] "B") "x"
      = some ("B" ++ "-" ++ "07") :=
  (dangling_parent_root_path [⟨"x", "p", 1, some "gone", "07", "solo"⟩] "B"
      (by decide) ⟨fun _ => 0, by decide⟩).1
    ⟨"x", "p", 1, some "gone", "07", "solo"⟩ (by decide) "gone" rfl (by decide)

/-- Any strictly parent-decreasing ranking, with no bound, can be normalized
to one bounded below the list length, so `Acyclic` captures exactly the
absence of cyclic parent chains, not an extra size assumption. -/
theorem acyclic_of_unbounded_rank (nodes : List WbsNode) (rank : String → Nat)
    (hdec : ∀ n ∈ nodes, ∀ m ∈ nodes, parentKey n = some m.id → rank m.id < rank n.id) :
    Acyclic nodes := by
  classical
  refine ⟨fun s =>
    ((nodes.map (fun n => rank n.id)).toFinset.filter (fun r => r < rank s)).card, ?_⟩
  unfold AcyclicRanked
  constructor
  · intro n hn
    have hmem : rank n.id ∈ (nodes.map (fun n => rank n.id)).toFinset := by
      rw [List.mem_toFinset]
      exact List.mem_map.mpr ⟨n, hn, rfl⟩
    have hsub : (nodes.map (fun n => rank n.id)).toFinset.filter (fun r => r < rank n.id)
        ⊆ (nodes.map (fun n => rank n.id)).toFinset.erase (rank n.id) := by
      intro r hr
      rw [Finset.mem_filter] at hr
      rw [Finset.mem_erase]
      exact ⟨Nat.ne_of_lt hr.2, hr.1⟩
    have h1 := Finset.card_le_card hsub
    have h2 : ((nodes.map (fun n => rank n.id)).toFinset.erase (rank n.id)).card
        < (nodes.map (fun n => rank n.id)).toFinset.card :=
      Finset.card_erase_lt_of_mem hmem
    have h3 : (nodes.map (fun n => rank n.id)).toFinset.card ≤ nodes.length := by
      calc (nodes.map (fun n => rank n.id)).toFinset.card
          ≤ (nodes.map (fun n => rank n.id)).length := List.toFinset_card_le _
        _ = nodes.length := by simp
    simp only []
    omega
  · intro n hn m hm hpk
    have hlt := hdec n hn m hm hpk
    have hmemm : rank m.id ∈ (nodes.map (fun n => rank n.id)).toFinset := by
      rw [List.mem_toFinset]
      exact List.mem_map.mpr ⟨m, hm, rfl⟩
    apply Finset.card_lt_card
    rw [Finset.ssubset_iff_of_subset]
    · refine ⟨rank m.id, ?_, ?_⟩
      · rw [Finset.mem_filter]
        exact ⟨hmemm, hlt⟩
      · intro hc
        exact absurd (Finset.mem_filter.mp hc).2 (by omega)
    · intro r hr
      rw [Finset.mem_filter] at hr ⊢
      exact ⟨hr.1, by omega⟩
